import Mathlib

/-!
# The PFS (`.s3d`) archive loader `loadS3d` of `s3d_loader/main.go`

A shallow embedding of `loadS3d` and the statements settled about it.

* A file on disk is a `File`: its size and its bytes by absolute offset, so
  that `os.File.Read` and `os.File.ReadAt` are total functions of the file.
* The Go function returns an `error`, prints what it decodes and may panic:
  a `Run` records the positional reads issued, the printed count, the printed
  names and the way the call ended.
* `compress/zlib` is a library outside the repository. Its reader is
  modelled by what the loader can observe through `Read` (`ZStream`, after
  `Read` of `compress/flate` and of `compress/zlib`); the header validation
  of `zlib.NewReader` is written out (`zlibNewReader`), and the DEFLATE
  decoder itself is a parameter `inflate` of the embedding, so that what is
  proved of `loadS3d` holds whatever the decoder does. `storedInflate` is a
  concrete decoder for the streams made of stored blocks, used to evaluate
  the loader on concrete archives.
* `int` is taken to be 64 bits wide, so `int(header.Offset)+4+i*12` never
  overflows; `uint32` arithmetic wraps modulo `2^32`. Memory is unbounded:
  the `make` calls of lines 123, 162 and 203 always succeed.
* `os.Open` is taken to have succeeded: `loadS3d` is modelled on a file that
  exists.
-/

namespace S3d

/-! ## Files and positional reads -/

/-- A regular file: `size` bytes, `byte i` being the byte at absolute offset
`i` (only offsets below `size` are ever delivered by a read). -/
structure File where
  size : Nat
  byte : Nat → Nat
  byte_lt : ∀ i, byte i < 256

/-- The file whose content is the given list of bytes. -/
def File.ofList (l : List Nat) : File where
  size := l.length
  byte := fun i => l.getD i 0 % 256
  byte_lt := fun _ => Nat.mod_lt _ (by decide)

/-- The bytes at offsets `off, off+1, ..., off+n-1`. -/
def File.slice (f : File) (off n : Nat) : List Nat :=
  (List.range n).map (fun i => f.byte (off + i))

/-- `file.ReadAt(b, off)` with `len(b) = n`, keeping only what the loader
looks at: `some` of the `n` bytes when the error is `nil`, `none` otherwise.
`ReadAt` returns a non-nil error whenever it reads fewer than `len(b)` bytes,
and reads nothing (successfully) into an empty buffer. -/
def readAt (f : File) (off n : Nat) : Option (List Nat) :=
  if n = 0 then some []
  else if off + n ≤ f.size then some (f.slice off n)
  else none

/-- `file.Read(headerBytes)` on the freshly opened file, with the 12-byte
zeroed buffer of line 87: `none` when the error is non-nil (only at end of
file, that is for an empty file), otherwise the buffer after the call, whose
first `min 12 size` bytes come from the file. The byte count returned by
`Read` is discarded by the caller. -/
def readHeaderBytes (f : File) : Option (List Nat) :=
  if f.size = 0 then none
  else some ((List.range 12).map (fun i => if i < f.size then f.byte i else 0))

/-! ## Little-endian decoding (`binary.Read` with `binary.LittleEndian`) -/

/-- The `uint32` stored little-endian in the first four bytes of `b`. -/
def le32 (b : List Nat) : Nat :=
  b.getD 0 0 % 256 + 256 * (b.getD 1 0 % 256) + 65536 * (b.getD 2 0 % 256)
    + 16777216 * (b.getD 3 0 % 256)

/-- Lines 49-53. -/
structure PFSHeader where
  Offset : Nat
  MagicCookie : List Nat
  Unknown : Nat
deriving DecidableEq, Repr

/-- Lines 59-63. -/
structure FileHeader where
  CRC : Nat
  Offset : Nat
  Size : Nat
deriving DecidableEq, Repr

/-- Lines 65-68. -/
structure DataBlock where
  CompressedLength : Nat
  InflatedLenth : Nat
deriving DecidableEq, Repr

/-- `binary.Read` of a `PFSHeader` from a 12-byte buffer. -/
def decodePFSHeader (b : List Nat) : PFSHeader :=
  ⟨le32 b, (b.drop 4).take 4, le32 (b.drop 8)⟩

/-- `binary.Read` of a `FileHeader` from a 12-byte buffer. -/
def decodeFileHeader (b : List Nat) : FileHeader :=
  ⟨le32 b, le32 (b.drop 4), le32 (b.drop 8)⟩

/-- `binary.Read` of a `DataBlock` from an 8-byte buffer. -/
def decodeDataBlock (b : List Nat) : DataBlock :=
  ⟨le32 b, le32 (b.drop 4)⟩

/-- Line 14. -/
def fileNameListCRC : Nat := 0x61580AC9

/-- The bytes of the string literal `"PFS "` of line 102. -/
def magicPFS : List Nat := [80, 70, 83, 32]

/-! ## The zlib reader as seen through `Read` -/

/-- The errors a zlib reader ends with. `eof` is `io.EOF`: the stream was
inflated to its end and its Adler-32 trailer matched. `huffman` is no error
of the library: it marks a block that `storedInflate` does not decode. -/
inductive ZErr where
  | eof
  | unexpectedEOF
  | header
  | dictionary
  | checksum
  | corrupt
  | huffman
deriving DecidableEq, Repr

/-- What remains to be delivered by a zlib reader. The decompressor hands
its output over in flushes of its window: `flushes` are the flushes made
while it had no error (the window was full, or an empty stored block asked
for a flush), in order; `last` is the flush made when it stopped, which
comes together with the terminal error `final`. -/
structure ZStream where
  flushes : List (List Nat)
  last : List Nat
  final : ZErr
deriving DecidableEq, Repr

/-- One call `r.Read(p)` with `len(p) = k`: the bytes copied into `p`, the
error returned, and the reader afterwards. A call copies from the current
flush only; it returns the terminal error exactly when it empties the last
flush (and on every later call). -/
def zread : List (List Nat) → List Nat → ZErr → Nat → List Nat × Option ZErr × ZStream
  | [], last, final, k =>
    if last.drop k = [] then (last.take k, some final, ⟨[], [], final⟩)
    else (last.take k, none, ⟨[], last.drop k, final⟩)
  | [] :: cs, last, final, k => zread cs last final k
  | (b :: c) :: cs, last, final, k =>
    if (b :: c).drop k = [] then ((b :: c).take k, none, ⟨cs, last, final⟩)
    else ((b :: c).take k, none, ⟨(b :: c).drop k :: cs, last, final⟩)

/-- A call `r.Read(p)` on a reader in state `r`, with `len(p) = k`. -/
def ZStream.read (r : ZStream) (k : Nat) : List Nat × Option ZErr × ZStream :=
  zread r.flushes r.last r.final k

/-- The buffer `make([]byte, k)` after a `Read` copied `bs` into it. -/
def pad (k : Nat) (bs : List Nat) : List Nat :=
  bs ++ List.replicate (k - bs.length) 0

/-- The header validation of `zlib.NewReader` (RFC 1950, section 2.2) on the
compressed bytes `c`, with no preset dictionary supplied by the caller;
`inflate` is the decompressor run on what follows the header. -/
def zlibNewReader (inflate : List Nat → ZStream) (c : List Nat) : Except ZErr ZStream :=
  match c with
  | cmf :: flg :: rest =>
    if cmf % 16 ≠ 8 ∨ 7 < cmf / 16 ∨ (256 * cmf + flg) % 31 ≠ 0 then .error .header
    else if flg / 32 % 2 = 1 then
      match rest with
      | d0 :: d1 :: d2 :: d3 :: rest4 =>
        if 16777216 * d0 + 65536 * d1 + 256 * d2 + d3 ≠ 1 then .error .dictionary
        else .ok (inflate rest4)
      | _ => .error .unexpectedEOF
    else .ok (inflate rest)
  | _ => .error .unexpectedEOF

/-! ## A decoder for stored blocks

`compress/flate` on streams whose blocks are all stored (RFC 1951, section
3.2.4), followed by the Adler-32 trailer check of `compress/zlib`. -/

/-- The Adler-32 checksum (RFC 1950, section 8.2) of `bs`. -/
def adler32 (bs : List Nat) : Nat :=
  let p := bs.foldl
    (fun (ab : Nat × Nat) x => ((ab.1 + x) % 65521, (ab.2 + (ab.1 + x) % 65521) % 65521))
    (1, 0)
  65536 * p.2 + p.1

/-- The size of the decompressor's window (`maxMatchOffset`). -/
def windowSize : Nat := 32768

/-- The output side of the decompressor: the flushes made so far, what was
written to the window since the last flush, and the write position in the
window. -/
structure Inflater where
  flushed : List (List Nat)
  pending : List Nat
  wrPos : Nat
deriving DecidableEq, Repr

/-- The decompressor stops with error `e`: what is left in the window is
flushed with it. -/
def Inflater.stop (s : Inflater) (e : ZErr) : ZStream :=
  ⟨s.flushed, s.pending, e⟩

/-- The final block has ended: the reader takes the four bytes that follow
as the big-endian Adler-32 of everything that was inflated. -/
def zlibTrailer (s : Inflater) (input : List Nat) : ZStream :=
  match input with
  | t0 :: t1 :: t2 :: t3 :: _ =>
    if 16777216 * t0 + 65536 * t1 + 256 * t2 + t3 = adler32 (s.flushed.flatten ++ s.pending)
    then s.stop .eof else s.stop .checksum
  | _ => s.stop .unexpectedEOF

/-- The steps of the decompressor of `compress/flate` on `input`. With
`copy = none` the next step reads a block header (`nextBlock`, `dataBlock`);
with `copy = some (copyLen, final)` it copies stored data into the window
(`copyData`) for a block that has `copyLen` bytes left and is the final one
when `final` holds. The window is flushed when it is full and when an empty
stored block is met; at the end of the final block what is left is flushed
with `io.EOF` (`finishBlock`). A block coded with Huffman codes stops the
decoder with `ZErr.huffman`: such blocks are outside this decoder. The first
argument bounds the number of steps. -/
def inflateSteps : Nat → Inflater → Option (Nat × Bool) → List Nat → ZStream
  | 0, s, _, _ => s.stop .corrupt
  | fuel + 1, s, none, input =>
    match input with
    | [] => s.stop .unexpectedEOF
    | h :: rest =>
      if h / 2 % 4 = 0 then
        match rest with
        | l0 :: l1 :: n0 :: n1 :: data =>
          if n0 + 256 * n1 ≠ 65535 - (l0 + 256 * l1) then s.stop .corrupt
          else if l0 + 256 * l1 = 0 then
            if h % 2 = 1 then zlibTrailer s data
            else inflateSteps fuel ⟨s.flushed ++ [s.pending], [], s.wrPos⟩ none data
          else inflateSteps fuel s (some (l0 + 256 * l1, h % 2 = 1)) data
        | _ => s.stop .unexpectedEOF
      else if h / 2 % 4 = 3 then s.stop .corrupt
      else s.stop .huffman
  | fuel + 1, s, some (copyLen, final), input =>
    if input.length < min copyLen (windowSize - s.wrPos) then
      ⟨s.flushed, s.pending ++ input, .unexpectedEOF⟩
    else
      let seg := min copyLen (windowSize - s.wrPos)
      let pending := s.pending ++ input.take seg
      if s.wrPos + seg = windowSize ∨ 0 < copyLen - seg then
        inflateSteps fuel ⟨s.flushed ++ [pending], [], 0⟩ (some (copyLen - seg, final))
          (input.drop seg)
      else if final then zlibTrailer ⟨s.flushed, pending, s.wrPos + seg⟩ (input.drop seg)
      else inflateSteps fuel ⟨s.flushed, pending, s.wrPos + seg⟩ none (input.drop seg)

/-- The zlib reader on the bytes that follow a zlib header, for streams of
stored blocks. The bound on the steps is never met: a step that reads a
block header takes at least five bytes of input or stops, and a step that
copies takes at least one byte or ends its block. -/
def storedInflate (body : List Nat) : ZStream :=
  inflateSteps (2 * body.length + 4) ⟨[], [], 0⟩ none body

/-! ## The loader -/

/-- The `return fmt.Errorf(...)` statements of `loadS3d`, by the read that
failed (the `binary.Read` calls decode a buffer of exactly the size of their
target and cannot fail). -/
inductive Err where
  | headerRead
  | magicCookie
  | unknownValue
  | directoryHeaderRead
  | fileHeaderRead
  | dataBlockRead
  | fileNameBytesRead
  | fileNameCountRead
  | fileNameLengthRead
  | fileNameEntryRead
deriving DecidableEq, Repr

/-- How a call of `loadS3d` ends: `return nil`, `return fmt.Errorf(...)`, or
the `panic(err)` of line 170 with the error of `zlib.NewReader`. -/
inductive Status where
  | ok
  | error (e : Err)
  | panic (z : ZErr)
deriving DecidableEq, Repr

/-- What a call of `loadS3d` does: the `ReadAt` calls it issues, as
(offset, length) in order; the count printed by line 185, if reached; the
names printed by line 208, in order; and how it ends. -/
structure Run where
  reads : List (Nat × Nat)
  found : Option Nat
  names : List (List Nat)
  status : Status
deriving DecidableEq, Repr

/-- Lines 87-107: the header, or the error `loadS3d` returns. -/
def readHeader (f : File) : Except Err PFSHeader :=
  match readHeaderBytes f with
  | none => .error .headerRead
  | some hb =>
    let header := decodePFSHeader hb
    if header.MagicCookie ≠ magicPFS then .error .magicCookie
    else if header.Unknown ≠ 131072 then .error .unknownValue
    else .ok header

/-- The state of the loop of lines 125-145 when it is left: the reads issued
by the loop, the slice `fileHeaders`, the variable `fileNameHeader`, and
whether a read failed. -/
structure Scan where
  reads : List (Nat × Nat)
  fileHeaders : List FileHeader
  fileNameHeader : FileHeader
  failed : Bool
deriving DecidableEq, Repr

/-- The loop of lines 125-145 with `todo` iterations left, about to run
iteration `i`, for the directory at offset `off`. -/
def scanLoop (f : File) (off : Nat) :
    Nat → Nat → List FileHeader → FileHeader → Scan
  | 0, _, fileHeaders, fileNameHeader => ⟨[], fileHeaders, fileNameHeader, false⟩
  | todo + 1, i, fileHeaders, fileNameHeader =>
    match readAt f (off + 4 + i * 12) 12 with
    | none => ⟨[(off + 4 + i * 12, 12)], fileHeaders, fileNameHeader, true⟩
    | some b =>
      let fileHeader := decodeFileHeader b
      let s :=
        if fileHeader.CRC = fileNameListCRC then
          scanLoop f off todo (i + 1) fileHeaders fileHeader
        else
          scanLoop f off todo (i + 1) (fileHeaders ++ [fileHeader]) fileNameHeader
      { s with reads := (off + 4 + i * 12, 12) :: s.reads }

/-- Lines 123-145: `fileHeaders` starts as `make([]FileHeader, count)`, that
is `count` zero-valued entries, and `fileNameHeader` as the zero value. This
is the scan once the slice has been allocated; `loadS3dOn` below is the
function on a host that may not have the memory for it. -/
def scanDirectory (f : File) (off count : Nat) : Scan :=
  scanLoop f off count 0 (List.replicate count ⟨0, 0, 0⟩) ⟨0, 0, 0⟩

/-- The loop of lines 187-209 with `todo` iterations left, on the reader `r`,
`names` having been printed so far: the names printed when the loop is left,
and `Status.ok` when it ran to its end. -/
def readNames : Nat → ZStream → List (List Nat) → List (List Nat) × Status
  | 0, _, names => (names, .ok)
  | todo + 1, r, names =>
    match r.read 4 with
    | (_, some _, _) => (names, .error .fileNameLengthRead)
    | (lb, none, r1) =>
      let length := le32 (pad 4 lb)
      match r1.read length with
      | (nb, none, r2) => readNames todo r2 (names ++ [pad length nb])
      | (nb, some .eof, r2) => readNames todo r2 (names ++ [pad length nb])
      | (_, some _, _) => (names, .error .fileNameEntryRead)

/-- Lines 173-221: the filename table is decoded from the reader `r`;
`reads` are the `ReadAt` calls issued before. -/
def decodeFileNames (reads : List (Nat × Nat)) (r : ZStream) : Run :=
  match r.read 4 with
  | (_, some _, _) => ⟨reads, none, [], .error .fileNameCountRead⟩
  | (cb, none, r1) =>
    let count := le32 (pad 4 cb)
    let out := readNames count r1 []
    ⟨reads, some count, out.1, out.2⟩

/-- Lines 147-171: the compressed block of the filename table is read at
the offset held by `fileNameHeader` and handed to `zlib.NewReader`; `reads`
are the `ReadAt` calls issued before. The result is either the finished run
(an error was returned, or `zlib.NewReader` failed and line 170 panicked) or
the reads issued and the reader. The offset of the compressed bytes is the
`uint32` sum `fileNameHeader.Offset+8` of line 163. -/
def openDataBlock (inflate : List Nat → ZStream) (f : File) (reads : List (Nat × Nat))
    (fileNameHeader : FileHeader) : Run ⊕ (List (Nat × Nat) × ZStream) :=
  let reads2 := reads ++ [(fileNameHeader.Offset, 8)]
  match readAt f fileNameHeader.Offset 8 with
  | none => .inl ⟨reads2, none, [], .error .dataBlockRead⟩
  | some bb =>
    let fileNameDataBlock := decodeDataBlock bb
    let at8 := (fileNameHeader.Offset + 8) % 4294967296
    let reads3 := reads2 ++ [(at8, fileNameDataBlock.CompressedLength)]
    match readAt f at8 fileNameDataBlock.CompressedLength with
    | none => .inl ⟨reads3, none, [], .error .fileNameBytesRead⟩
    | some fileNameBytes =>
      match zlibNewReader inflate fileNameBytes with
      | .error z => .inl ⟨reads3, none, [], .panic z⟩
      | .ok r => .inr (reads3, r)

/-- Lines 109-171, after a valid header: the directory is scanned, then the
reader on the filename table is opened. -/
def openFileNames (inflate : List Nat → ZStream) (f : File) (header : PFSHeader) :
    Run ⊕ (List (Nat × Nat) × ZStream) :=
  match readAt f header.Offset 4 with
  | none => .inl ⟨[(header.Offset, 4)], none, [], .error .directoryHeaderRead⟩
  | some db =>
    let scan := scanDirectory f header.Offset (le32 db)
    if scan.failed then
      .inl ⟨(header.Offset, 4) :: scan.reads, none, [], .error .fileHeaderRead⟩
    else openDataBlock inflate f ((header.Offset, 4) :: scan.reads) scan.fileNameHeader

/-- Lines 173-221 after `openFileNames`: a finished run is kept, an opened
reader is decoded. -/
def decodeOpened : Run ⊕ (List (Nat × Nat) × ZStream) → Run
  | .inl run => run
  | .inr (reads, r) => decodeFileNames reads r

/-- The function `loadS3d` (lines 78-222) on an existing file `f`. -/
def loadS3d (inflate : List Nat → ZStream) (f : File) : Run :=
  match readHeader f with
  | .error e => ⟨[], none, [], .error e⟩
  | .ok header => decodeOpened (openFileNames inflate f header)

/-! ## The loader on a host of bounded memory

Three `make` calls of `loadS3d` ask for a number of bytes that comes from the
file: the slice of line 123 (12 bytes for each declared directory entry), the
buffer of line 162 (the compressed length) and the buffer of line 203 (the
length of a name). When the Go runtime cannot obtain the memory it ends the
process with `fatal error: runtime: out of memory`, which is no panic and
cannot be recovered: `loadS3d` returns nothing. In what follows `mem` is the
largest number of bytes that the host gives to one such call. The functions
above are the loader on a host that gives whatever is asked. -/

/-- How a call of `loadS3d` comes out on a host: it ends as a `Run` says, or
the runtime ends the process at the `make` of line `line`; the `ReadAt` calls
issued before, the count printed by line 185, if reached, and the names
printed before are kept. -/
inductive Outcome where
  | finished (run : Run)
  | outOfMemory (line : Nat) (reads : List (Nat × Nat)) (found : Option Nat)
      (names : List (List Nat))
deriving DecidableEq, Repr

/-- The loop of lines 187-209 as in `readNames`, on a host that gives at most
`mem` bytes to the `make([]byte, fileNameLength.Length)` of line 203: the
result of the loop, or the names printed when the process was ended. -/
def readNamesOn (mem : Nat) :
    Nat → ZStream → List (List Nat) → (List (List Nat) × Status) ⊕ List (List Nat)
  | 0, _, names => .inl (names, .ok)
  | todo + 1, r, names =>
    match r.read 4 with
    | (_, some _, _) => .inl (names, .error .fileNameLengthRead)
    | (lb, none, r1) =>
      let length := le32 (pad 4 lb)
      if mem < length then .inr names
      else
        match r1.read length with
        | (nb, none, r2) => readNamesOn mem todo r2 (names ++ [pad length nb])
        | (nb, some .eof, r2) => readNamesOn mem todo r2 (names ++ [pad length nb])
        | (_, some _, _) => .inl (names, .error .fileNameEntryRead)

/-- Lines 173-221 on a host that gives at most `mem` bytes to one `make`. -/
def decodeFileNamesOn (mem : Nat) (reads : List (Nat × Nat)) (r : ZStream) : Outcome :=
  match r.read 4 with
  | (_, some _, _) => .finished ⟨reads, none, [], .error .fileNameCountRead⟩
  | (cb, none, r1) =>
    let count := le32 (pad 4 cb)
    match readNamesOn mem count r1 [] with
    | .inl out => .finished ⟨reads, some count, out.1, out.2⟩
    | .inr names => .outOfMemory 203 reads (some count) names

/-- Lines 147-221 on a host that gives at most `mem` bytes to one `make`:
as `openDataBlock`, with the `make([]byte, CompressedLength)` of line 162,
which comes after the read of the block header and before the read of the
compressed bytes; then the filename table is decoded. -/
def loadFileNamesOn (mem : Nat) (inflate : List Nat → ZStream) (f : File)
    (reads : List (Nat × Nat)) (fileNameHeader : FileHeader) : Outcome :=
  let reads2 := reads ++ [(fileNameHeader.Offset, 8)]
  match readAt f fileNameHeader.Offset 8 with
  | none => .finished ⟨reads2, none, [], .error .dataBlockRead⟩
  | some bb =>
    let fileNameDataBlock := decodeDataBlock bb
    if mem < fileNameDataBlock.CompressedLength then .outOfMemory 162 reads2 none []
    else
      let at8 := (fileNameHeader.Offset + 8) % 4294967296
      let reads3 := reads2 ++ [(at8, fileNameDataBlock.CompressedLength)]
      match readAt f at8 fileNameDataBlock.CompressedLength with
      | none => .finished ⟨reads3, none, [], .error .fileNameBytesRead⟩
      | some fileNameBytes =>
        match zlibNewReader inflate fileNameBytes with
        | .error z => .finished ⟨reads3, none, [], .panic z⟩
        | .ok r => decodeFileNamesOn mem reads3 r

/-- The function `loadS3d` (lines 78-222) on an existing file `f` and a host
that gives at most `mem` bytes to one `make`. The slice of line 123 is
allocated after the read of the entry count and before the read of the first
directory record. -/
def loadS3dOn (mem : Nat) (inflate : List Nat → ZStream) (f : File) : Outcome :=
  match readHeader f with
  | .error e => .finished ⟨[], none, [], .error e⟩
  | .ok header =>
    match readAt f header.Offset 4 with
    | none => .finished ⟨[(header.Offset, 4)], none, [], .error .directoryHeaderRead⟩
    | some db =>
      if mem < 12 * le32 db then .outOfMemory 123 [(header.Offset, 4)] none []
      else
        let scan := scanDirectory f header.Offset (le32 db)
        if scan.failed then
          .finished ⟨(header.Offset, 4) :: scan.reads, none, [], .error .fileHeaderRead⟩
        else
          loadFileNamesOn mem inflate f ((header.Offset, 4) :: scan.reads)
            scan.fileNameHeader

/-! ## The format, as the specification words it -/

/-- The `i`-th 12-byte record of the directory at offset `off`. -/
def dirEntry (f : File) (off i : Nat) : FileHeader :=
  decodeFileHeader (f.slice (off + 4 + i * 12) 12)

/-- The `count` records of the directory at offset `off`, in order. -/
def directory (f : File) (off count : Nat) : List FileHeader :=
  (List.range' 0 count).map (dirEntry f off)

/-- The four bytes of a `u32`, little-endian. -/
def le32bytes (n : Nat) : List Nat :=
  [n % 256, n / 256 % 256, n / 65536 % 256, n / 16777216 % 256]

/-- The records `[length (u32)][length bytes of name]` of the given names. -/
def encodeNames : List (List Nat) → List Nat
  | [] => []
  | n :: ns => le32bytes n.length ++ (n ++ encodeNames ns)

/-- The decompressed filename table of the given names: `name_count (u32)`,
then the records. -/
def encodeTable (names : List (List Nat)) : List Nat :=
  le32bytes names.length ++ encodeNames names

/-! ## Concrete archives -/

/-- A 12-byte header with magic `"XYZ "`. -/
def xyzHeader : List Nat :=
  [0, 0, 0, 0, 88, 89, 90, 32, 0, 0, 2, 0]  -- header

/-- An 11-byte file: directory offset 7, magic `"PFS "`, and the first three
bytes `00 00 02` of the format constant. -/
def elevenBytes : List Nat :=
  [7, 0, 0, 0, 80, 70, 83, 32, 0, 0, 2]  -- 11 bytes

/-- A valid header with directory offset 12, a directory declaring five
entries, and two records. -/
def fiveDeclaredTwoPresent : List Nat :=
  [12, 0, 0, 0, 80, 70, 83, 32, 0, 0, 2, 0,  -- header: directory at 12
   5, 0, 0, 0,  -- directory: count 5
   1, 0, 0, 0, 100, 0, 0, 0, 5, 0, 0, 0,  -- checksum 1, offset 100, size 5
   2, 0, 0, 0, 200, 0, 0, 0, 6, 0, 0, 0]  -- checksum 2, offset 200, size 6

/-- A valid header with directory offset 12 and a directory that declares
4294967295 entries, in a file that ends after the count. -/
def hugeCount : List Nat :=
  [12, 0, 0, 0, 80, 70, 83, 32, 0, 0, 2, 0,  -- header: directory at 12
   255, 255, 255, 255]  -- directory: count 4294967295

/-- A valid header with directory offset 12 and a directory of two entries,
none with the reserved checksum. -/
def noReserved : List Nat :=
  [12, 0, 0, 0, 80, 70, 83, 32, 0, 0, 2, 0,  -- header: directory at 12
   2, 0, 0, 0,  -- directory: count 2
   1, 0, 0, 0, 100, 0, 0, 0, 5, 0, 0, 0,  -- checksum 1, offset 100, size 5
   2, 0, 0, 0, 200, 0, 0, 0, 6, 0, 0, 0]  -- checksum 2, offset 200, size 6

/-- A well-formed archive: the filename table (the names `a.txt` and `b.dat`)
as one stored block, and a directory of three entries, the second one
carrying the reserved checksum. -/
def twoNames : List Nat :=
  [53, 0, 0, 0, 80, 70, 83, 32, 0, 0, 2, 0,  -- header: directory at 53
   33, 0, 0, 0, 22, 0, 0, 0,  -- block header at 12: 33 compressed bytes
   120, 1,  -- zlib header
   1, 22, 0, 233, 255, 2, 0, 0, 0, 5, 0, 0, 0, 97, 46, 116, 120, 116, 5, 0, 0, 0, 98, 46, 100, 97, 116,  -- final stored block of 22 bytes
   28, 145, 3, 197,  -- Adler-32
   3, 0, 0, 0,  -- directory: count 3
   1, 0, 0, 0, 100, 0, 0, 0, 5, 0, 0, 0,  -- checksum 1, offset 100, size 5
   201, 10, 88, 97, 12, 0, 0, 0, 41, 0, 0, 0,  -- reserved checksum, offset 12, size 41
   2, 0, 0, 0, 200, 0, 0, 0, 6, 0, 0, 0]  -- checksum 2, offset 200, size 6

/-- The archive `twoNames` with a directory of four entries, of which the first
and the third carry the reserved checksum: the first one with payload
offset 0, the third one with the offset 12 of the filename table. -/
def twoReserved : List Nat :=
  [53, 0, 0, 0, 80, 70, 83, 32, 0, 0, 2, 0,  -- header: directory at 53
   33, 0, 0, 0, 22, 0, 0, 0,  -- block header at 12: 33 compressed bytes
   120, 1,  -- zlib header
   1, 22, 0, 233, 255, 2, 0, 0, 0, 5, 0, 0, 0, 97, 46, 116, 120, 116, 5, 0, 0, 0, 98, 46, 100, 97, 116,  -- final stored block of 22 bytes
   28, 145, 3, 197,  -- Adler-32
   4, 0, 0, 0,  -- directory: count 4
   201, 10, 88, 97, 0, 0, 0, 0, 0, 0, 0, 0,  -- reserved checksum, offset 0, size 0
   7, 0, 0, 0, 100, 0, 0, 0, 5, 0, 0, 0,  -- checksum 7, offset 100, size 5
   201, 10, 88, 97, 12, 0, 0, 0, 41, 0, 0, 0,  -- reserved checksum, offset 12, size 41
   9, 0, 0, 0, 200, 0, 0, 0, 6, 0, 0, 0]  -- checksum 9, offset 200, size 6

/-- An archive whose filename table holds the three names `a`, `b`, `c` and
whose directory holds the reserved entry and four other entries. -/
def threeNamesFourEntries : List Nat :=
  [50, 0, 0, 0, 80, 70, 83, 32, 0, 0, 2, 0,  -- header: directory at 50
   30, 0, 0, 0, 19, 0, 0, 0,  -- block header at 12: 30 compressed bytes
   120, 1,  -- zlib header
   1, 19, 0, 236, 255, 3, 0, 0, 0, 1, 0, 0, 0, 97, 1, 0, 0, 0, 98, 1, 0, 0, 0, 99,  -- final stored block of 19 bytes
   7, 68, 1, 45,  -- Adler-32
   5, 0, 0, 0,  -- directory: count 5
   201, 10, 88, 97, 12, 0, 0, 0, 38, 0, 0, 0,  -- reserved checksum, offset 12, size 38
   1, 0, 0, 0, 100, 0, 0, 0, 5, 0, 0, 0,  -- checksum 1, offset 100, size 5
   2, 0, 0, 0, 200, 0, 0, 0, 6, 0, 0, 0,  -- checksum 2, offset 200, size 6
   3, 0, 0, 0, 44, 1, 0, 0, 7, 0, 0, 0,  -- checksum 3, offset 300, size 7
   4, 0, 0, 0, 144, 1, 0, 0, 8, 0, 0, 0]  -- checksum 4, offset 400, size 8

/-- An archive whose reserved entry points at a block of two compressed bytes
`12 34`, which are no zlib header. -/
def badZlibHeader : List Nat :=
  [22, 0, 0, 0, 80, 70, 83, 32, 0, 0, 2, 0,  -- header: directory at 22
   2, 0, 0, 0, 0, 0, 0, 0,  -- block header at 12: 2 compressed bytes
   18, 52,  -- not a zlib header
   2, 0, 0, 0,  -- directory: count 2
   201, 10, 88, 97, 12, 0, 0, 0, 10, 0, 0, 0,  -- reserved checksum, offset 12, size 10
   1, 0, 0, 0, 100, 0, 0, 0, 5, 0, 0, 0]  -- checksum 1, offset 100, size 5

/-- An archive with no file: the directory holds the reserved entry only and
the filename table is the count 0, as one stored block. -/
def noNames : List Nat :=
  [35, 0, 0, 0, 80, 70, 83, 32, 0, 0, 2, 0,  -- header: directory at 35
   15, 0, 0, 0, 4, 0, 0, 0,  -- block header at 12: 15 compressed bytes
   120, 1,  -- zlib header
   1, 4, 0, 251, 255, 0, 0, 0, 0,  -- final stored block of 4 bytes
   0, 4, 0, 1,  -- Adler-32
   1, 0, 0, 0,  -- directory: count 1
   201, 10, 88, 97, 12, 0, 0, 0, 23, 0, 0, 0]  -- reserved checksum, offset 12, size 23

/-- An archive whose filename table inflates to the count 1, the length 5 and
the two bytes `ab`. -/
def truncatedName : List Nat :=
  [41, 0, 0, 0, 80, 70, 83, 32, 0, 0, 2, 0,  -- header: directory at 41
   21, 0, 0, 0, 10, 0, 0, 0,  -- block header at 12: 21 compressed bytes
   120, 1,  -- zlib header
   1, 10, 0, 245, 255, 1, 0, 0, 0, 5, 0, 0, 0, 97, 98,  -- final stored block of 10 bytes
   1, 86, 0, 202,  -- Adler-32
   2, 0, 0, 0,  -- directory: count 2
   201, 10, 88, 97, 12, 0, 0, 0, 29, 0, 0, 0,  -- reserved checksum, offset 12, size 29
   1, 0, 0, 0, 100, 0, 0, 0, 5, 0, 0, 0]  -- checksum 1, offset 100, size 5

/-- An archive whose filename table inflates to the count 1 and the two bytes
`00 00`: a stored block of these six bytes, an empty stored block (a sync
flush), and an empty final stored block. -/
def flushedShortLength : List Nat :=
  [47, 0, 0, 0, 80, 70, 83, 32, 0, 0, 2, 0,  -- header: directory at 47
   27, 0, 0, 0, 6, 0, 0, 0,  -- block header at 12: 27 compressed bytes
   120, 1,  -- zlib header
   0, 6, 0, 249, 255, 1, 0, 0, 0, 0, 0,  -- stored block of 6 bytes
   0, 0, 0, 255, 255,  -- stored block of 0 bytes
   1, 0, 0, 255, 255,  -- final stored block of 0 bytes
   0, 12, 0, 2,  -- Adler-32
   2, 0, 0, 0,  -- directory: count 2
   201, 10, 88, 97, 12, 0, 0, 0, 35, 0, 0, 0,  -- reserved checksum, offset 12, size 35
   1, 0, 0, 0, 100, 0, 0, 0, 5, 0, 0, 0]  -- checksum 1, offset 100, size 5

/-- The file made of the bytes `lo` at offset 0 and of the bytes `hi` at
offset `pos`, with zero bytes in between (`pos` is not below the length of
`lo`). -/
def File.ofParts (lo : List Nat) (pos : Nat) (hi : List Nat) : File where
  size := pos + hi.length
  byte := fun i => (if i < pos then lo.getD i 0 else hi.getD (i - pos) 0) % 256
  byte_lt := fun _ => Nat.mod_lt _ (by decide)

/-- A file of more than 4 GiB: the header, with directory offset
4294967280, and the block of the filename table of `twoNames` at the start;
at offset 4294967280 a directory of two entries, the second of which has the
reserved checksum and lies beyond offset `2^32`. -/
def farDirectory : File :=
  File.ofParts
    [240, 255, 255, 255, 80, 70, 83, 32, 0, 0, 2, 0,  -- header: directory at 4294967280
     33, 0, 0, 0, 22, 0, 0, 0,  -- block header at 12: 33 compressed bytes
     120, 1,  -- zlib header
     1, 22, 0, 233, 255, 2, 0, 0, 0, 5, 0, 0, 0, 97, 46, 116, 120, 116, 5, 0, 0, 0, 98, 46,
     100, 97, 116,  -- final stored block of 22 bytes
     28, 145, 3, 197]  -- Adler-32
    4294967280
    [2, 0, 0, 0,  -- directory: count 2
     1, 0, 0, 0, 100, 0, 0, 0, 5, 0, 0, 0,  -- checksum 1, offset 100, size 5
     201, 10, 88, 97, 12, 0, 0, 0, 41, 0, 0, 0]  -- reserved checksum, offset 12, size 41

/-- A valid header with directory offset 12 and a directory of no entry. -/
def emptyDirectory : List Nat :=
  [12, 0, 0, 0, 80, 70, 83, 32, 0, 0, 2, 0,  -- header: directory at 12
   0, 0, 0, 0]  -- directory: count 0

/-- A file of more than 4 GiB whose only directory entry has the reserved
checksum and the payload offset 4294967288, that is `2^32 - 8`: the block
header lies at that offset and the compressed bytes, the filename table of
`twoNames`, at offset `2^32`. The header has directory offset 376. -/
def wrappedBlock : File :=
  File.ofParts
    ([120, 1, 0, 0, 80, 70, 83, 32, 0, 0, 2, 0]  -- header: directory at 376
      ++ List.replicate 364 0
      ++ [1, 0, 0, 0,  -- directory: count 1
          201, 10, 88, 97, 248, 255, 255, 255, 41, 0, 0, 0])  -- reserved, offset 2^32 - 8
    4294967288
    [33, 0, 0, 0, 22, 0, 0, 0,  -- block header: 33 compressed bytes
     120, 1,  -- zlib header, at offset 2^32
     1, 22, 0, 233, 255, 2, 0, 0, 0, 5, 0, 0, 0, 97, 46, 116, 120, 116, 5, 0, 0, 0, 98, 46,
     100, 97, 116,  -- final stored block of 22 bytes
     28, 145, 3, 197]  -- Adler-32

/-- The bytes `l` with the bytes `bs` written over them from offset `pos`. -/
def patch (l : List Nat) (pos : Nat) (bs : List Nat) : List Nat :=
  l.take pos ++ bs ++ l.drop (pos + bs.length)

/-- The offset `i` is that of one of the bytes of the block at `p` that a
run looks at: the four bytes of the compressed length, and the compressed
bytes, which are read at the `uint32` sum of `p` and 8. -/
@[reducible] def inBlock (f : File) (p i : Nat) : Prop :=
  (p ≤ i ∧ i < p + 4) ∨
  ((p + 8) % 4294967296 ≤ i ∧ i < (p + 8) % 4294967296 + le32 (f.slice p 4))

/-- An archive whose parts overlap. The first directory record has the
reserved checksum and the payload offset 24, the offset of its own payload
size: the block header of the filename table is made of that payload size
(the compressed length, 20) and of the checksum of the second record (the
inflated length). The 20 compressed bytes, the table of the one name `a`,
start at offset 32 with the payload offset and payload size of the second
record. -/
def overlapped : List Nat :=
  [12, 0, 0, 0, 80, 70, 83, 32, 0, 0, 2, 0,  -- header: directory at 12
   2, 0, 0, 0,  -- directory: count 2
   201, 10, 88, 97, 24, 0, 0, 0,  -- record 0: reserved checksum, offset 24
   20, 0, 0, 0,  -- record 0: size 20; also the compressed length of the block at 24
   5, 0, 0, 0,  -- record 1: checksum 5; also the inflated length of the block at 24
   120, 1, 1, 9,  -- record 1: offset; also zlib header and start of a final stored block
   0, 246, 255, 1,  -- record 1: size; also the rest of the block header, first table byte
   0, 0, 0, 1, 0, 0, 0, 97,  -- rest of the table: count 1, length 1, name `a`
   0, 120, 0, 100]  -- Adler-32

/-- The archive `twoNames` with other payload offsets and payload sizes in
its two records without the reserved checksum: 4000000000 and 77 in the
first record, 0 and 4294967295 in the third. -/
def twoNamesOtherPayloads : List Nat :=
  patch (patch twoNames 61 [0, 40, 107, 238, 77, 0, 0, 0]) 85 [0, 0, 0, 0, 255, 255, 255, 255]

/-- The archive `truncatedName` with the four bytes `cdef` appended to its
inflated filename table, which is compressed again as one stored block. -/
def truncatedNameExtended : List Nat :=
  [45, 0, 0, 0, 80, 70, 83, 32, 0, 0, 2, 0,  -- header: directory at 45
   25, 0, 0, 0, 14, 0, 0, 0,  -- block header at 12: 25 compressed bytes
   120, 1,  -- zlib header
   1, 14, 0, 241, 255, 1, 0, 0, 0, 5, 0, 0, 0, 97, 98, 99, 100, 101, 102,  -- final stored block of 14 bytes
   8, 102, 2, 92,  -- Adler-32
   2, 0, 0, 0,  -- directory: count 2
   201, 10, 88, 97, 12, 0, 0, 0, 33, 0, 0, 0,  -- reserved checksum, offset 12, size 33
   1, 0, 0, 0, 100, 0, 0, 0, 5, 0, 0, 0]  -- checksum 1, offset 100, size 5

/-- A well-formed archive whose filename table holds the name `a` and the
empty name and ends with the length 0 of the latter, as one stored block. -/
def emptyLastName : List Nat :=
  [44, 0, 0, 0, 80, 70, 83, 32, 0, 0, 2, 0,  -- header: directory at 44
   24, 0, 0, 0, 13, 0, 0, 0,  -- block header at 12: 24 compressed bytes
   120, 1,  -- zlib header
   1, 13, 0, 242, 255, 2, 0, 0, 0, 1, 0, 0, 0, 97, 0, 0, 0, 0,  -- final stored block of 13 bytes
   2, 21, 0, 101,  -- Adler-32
   3, 0, 0, 0,  -- directory: count 3
   201, 10, 88, 97, 12, 0, 0, 0, 32, 0, 0, 0,  -- reserved checksum, offset 12, size 32
   1, 0, 0, 0, 100, 0, 0, 0, 5, 0, 0, 0,  -- checksum 1, offset 100, size 5
   2, 0, 0, 0, 200, 0, 0, 0, 0, 0, 0, 0]  -- checksum 2, offset 200, size 0

/-- The archive `twoNames` with three zero bytes appended to its inflated
filename table, which is compressed again as one stored block. -/
def twoNamesPadded : List Nat :=
  [56, 0, 0, 0, 80, 70, 83, 32, 0, 0, 2, 0,  -- header: directory at 56
   36, 0, 0, 0, 25, 0, 0, 0,  -- block header at 12: 36 compressed bytes
   120, 1,  -- zlib header
   1, 25, 0, 230, 255, 2, 0, 0, 0, 5, 0, 0, 0, 97, 46, 116, 120, 116, 5, 0, 0, 0, 98, 46, 100, 97, 116, 0, 0, 0,  -- final stored block of 25 bytes
   39, 224, 3, 197,  -- Adler-32
   3, 0, 0, 0,  -- directory: count 3
   1, 0, 0, 0, 100, 0, 0, 0, 5, 0, 0, 0,  -- checksum 1, offset 100, size 5
   201, 10, 88, 97, 12, 0, 0, 0, 44, 0, 0, 0,  -- reserved checksum, offset 12, size 44
   2, 0, 0, 0, 200, 0, 0, 0, 6, 0, 0, 0]  -- checksum 2, offset 200, size 6

/-- A well-formed archive whose filename table holds the name `a` twice, as
one stored block, and whose directory has two entries besides the reserved
one. -/
def duplicateNames : List Nat :=
  [45, 0, 0, 0, 80, 70, 83, 32, 0, 0, 2, 0,  -- header: directory at 45
   25, 0, 0, 0, 14, 0, 0, 0,  -- block header at 12: 25 compressed bytes
   120, 1,  -- zlib header
   1, 14, 0, 241, 255, 2, 0, 0, 0, 1, 0, 0, 0, 97, 1, 0, 0, 0, 97,  -- final stored block of 14 bytes
   2, 224, 0, 199,  -- Adler-32
   3, 0, 0, 0,  -- directory: count 3
   1, 0, 0, 0, 100, 0, 0, 0, 5, 0, 0, 0,  -- checksum 1, offset 100, size 5
   201, 10, 88, 97, 12, 0, 0, 0, 33, 0, 0, 0,  -- reserved checksum, offset 12, size 33
   2, 0, 0, 0, 200, 0, 0, 0, 6, 0, 0, 0]  -- checksum 2, offset 200, size 6

/-! ## Positional reads -/

theorem range_twelve : List.range 12 = [0, 1, 2, 3, 4, 5, 6, 7, 8, 9, 10, 11] := by decide

theorem range_eight : List.range 8 = [0, 1, 2, 3, 4, 5, 6, 7] := by decide

theorem range_four : List.range 4 = [0, 1, 2, 3] := by decide

theorem readAt_of_le (f : File) (off n : Nat) (h : off + n ≤ f.size) :
    readAt f off n = some (f.slice off n) := by
  unfold readAt
  by_cases hn : n = 0
  · subst hn; simp [File.slice]
  · simp [hn, h]

theorem readAt_of_lt (f : File) (off n : Nat) (hn : n ≠ 0) (h : f.size < off + n) :
    readAt f off n = none := by
  have h2 : ¬ off + n ≤ f.size := by omega
  simp [readAt, hn, h2]

theorem slice_succ (f : File) (off n : Nat) :
    f.slice off (n + 1) = f.byte off :: f.slice (off + 1) n := by
  simp only [File.slice, List.range_succ_eq_map, List.map_cons, List.map_map, Nat.add_zero]
  congr 1
  apply List.map_congr_left
  intro i _
  simp only [Function.comp]
  congr 1
  omega

/-! ## The header (lines 87-107) -/

/-- On a file of at least 12 bytes the header buffer is the first 12 bytes. -/
theorem readHeaderBytes_full (f : File) (h : 12 ≤ f.size) :
    readHeaderBytes f = some (f.slice 0 12) := by
  have h0 : f.size ≠ 0 := by omega
  have e : ∀ i ∈ List.range 12, (if i < f.size then f.byte i else 0) = f.byte (0 + i) := by
    intro i hi
    have h1 : i < 12 := List.mem_range.mp hi
    have h2 : i < f.size := by omega
    simp [h2]
  simp only [readHeaderBytes, h0, if_false, File.slice]
  exact congrArg some (List.map_congr_left e)

/-- The three fields of the header, by their place in the file. -/
theorem decodePFSHeader_slice (f : File) :
    decodePFSHeader (f.slice 0 12)
      = ⟨le32 (f.slice 0 4), f.slice 4 4, le32 (f.slice 8 4)⟩ := by
  simp [decodePFSHeader, File.slice, range_twelve, range_four, le32]

/-- A file of at least 12 bytes with the magic `"PFS "` at [4,8) and the
format constant 131072 at [8,12) has its header accepted, the directory
offset being the `u32` at [0,4). -/
theorem readHeader_valid (f : File) (hsize : 12 ≤ f.size)
    (hm : f.slice 4 4 = magicPFS) (hv : le32 (f.slice 8 4) = 131072) :
    readHeader f = .ok ⟨le32 (f.slice 0 4), magicPFS, 131072⟩ := by
  unfold readHeader
  rw [readHeaderBytes_full f hsize]
  simp [decodePFSHeader_slice, hm, hv]

/-- An accepted header is the decoding of the header buffer and passed both
checks. -/
theorem readHeader_ok_iff (f : File) (h : PFSHeader) (hh : readHeader f = .ok h) :
    ∃ hb, readHeaderBytes f = some hb ∧ h = decodePFSHeader hb ∧
      h.MagicCookie = magicPFS ∧ h.Unknown = 131072 := by
  unfold readHeader at hh
  cases hrb : readHeaderBytes f with
  | none => rw [hrb] at hh; cases hh
  | some hb =>
    rw [hrb] at hh
    by_cases hm : (decodePFSHeader hb).MagicCookie = magicPFS
    · by_cases hu : (decodePFSHeader hb).Unknown = 131072
      · simp only [hm, hu, ne_eq, not_true_eq_false, if_false, Except.ok.injEq] at hh
        subst hh
        exact ⟨hb, rfl, rfl, hm, hu⟩
      · simp [hm, hu] at hh
    · simp [hm] at hh

/-- What an accepted header says about the file: it has at least 11 bytes,
the directory offset is the `u32` at offset 0, and the bytes at offsets 8 and
9 (the low bytes of the format constant) are zero. -/
theorem readHeader_ok (f : File) (h : PFSHeader) (hh : readHeader f = .ok h) :
    11 ≤ f.size ∧ h.Offset = le32 (f.slice 0 4) ∧ f.byte 8 = 0 ∧ f.byte 9 = 0 := by
  obtain ⟨hb, hrb, hdec, -, hu⟩ := readHeader_ok_iff f h hh
  unfold readHeaderBytes at hrb
  by_cases h0 : f.size = 0
  · simp [h0] at hrb
  · simp only [h0, if_false, range_twelve, List.map_cons, List.map_nil,
      Option.some.injEq] at hrb
    subst hrb
    subst hdec
    simp only [decodePFSHeader, le32, List.drop, List.getD_cons_zero,
      List.getD_cons_succ] at hu ⊢
    simp only [File.slice, range_four, List.map_cons, List.map_nil, List.getD_cons_zero,
      List.getD_cons_succ]
    have b8 := f.byte_lt 8
    have b9 := f.byte_lt 9
    have m8 := Nat.mod_lt (if 8 < f.size then f.byte 8 else 0) (show 0 < 256 by decide)
    have m9 := Nat.mod_lt (if 9 < f.size then f.byte 9 else 0) (show 0 < 256 by decide)
    have m10 := Nat.mod_lt (if 10 < f.size then f.byte 10 else 0) (show 0 < 256 by decide)
    have m11 := Nat.mod_lt (if 11 < f.size then f.byte 11 else 0) (show 0 < 256 by decide)
    have e10 : (if 10 < f.size then f.byte 10 else 0) % 256 = 2 := by omega
    have e8 : (if 8 < f.size then f.byte 8 else 0) % 256 = 0 := by omega
    have e9 : (if 9 < f.size then f.byte 9 else 0) % 256 = 0 := by omega
    have hs : 10 < f.size := by
      by_contra hc
      simp [hc] at e10
    have h8 : 8 < f.size := by omega
    have h9 : 9 < f.size := by omega
    have h1 : 1 < f.size := by omega
    have h2 : 2 < f.size := by omega
    have h3 : 3 < f.size := by omega
    have h00 : 0 < f.size := by omega
    simp only [h8, h9, if_true] at e8 e9
    refine ⟨by omega, ?_, by omega, by omega⟩
    simp [h00, h1, h2, h3]

/-! ## The directory scan (lines 109-145) -/

/-- The scan fails when the file ends before the last declared record. -/
theorem scanLoop_failed (f : File) (off : Nat) :
    ∀ (todo i : Nat) (fhs : List FileHeader) (fnh : FileHeader),
      0 < todo → f.size < off + 4 + (i + todo) * 12 →
      (scanLoop f off todo i fhs fnh).failed = true := by
  intro todo
  induction todo with
  | zero => intro i fhs fnh h; omega
  | succ n ih =>
    intro i fhs fnh _ hsz
    by_cases hr : off + 4 + i * 12 + 12 ≤ f.size
    · have hn : 0 < n := by
        rcases Nat.eq_zero_or_pos n with h0 | h0
        · subst h0; omega
        · exact h0
      have hsz2 : f.size < off + 4 + (i + 1 + n) * 12 := by
        have e : i + 1 + n = i + (n + 1) := by omega
        rw [e]; exact hsz
      simp only [scanLoop, readAt_of_le f _ 12 hr]
      split
      · exact ih (i + 1) _ _ hn hsz2
      · exact ih (i + 1) _ _ hn hsz2
    · have hr2 : f.size < off + 4 + i * 12 + 12 := by omega
      simp [scanLoop, readAt_of_lt f _ 12 (by decide) hr2]

theorem getLast?_cons_getD {α : Type} (e d : α) (l : List α) :
    (e :: l).getLast?.getD d = l.getLast?.getD e := by
  cases l with
  | nil => simp
  | cons a t =>
    rw [List.getLast?_cons_cons]
    cases h : (a :: t).getLast? with
    | none => simp at h
    | some x => rfl

/-- The scan of records that lie within the file: every record is read; the
records without the reserved checksum are appended to `fileHeaders` in
order; `fileNameHeader` ends as the last record with the reserved checksum,
and keeps its value when there is none. -/
theorem scanLoop_readable (f : File) (off : Nat) :
    ∀ (todo i : Nat) (fhs : List FileHeader) (fnh : FileHeader),
      off + 4 + (i + todo) * 12 ≤ f.size →
      scanLoop f off todo i fhs fnh =
        ⟨(List.range' i todo).map (fun j => (off + 4 + j * 12, 12)),
         fhs ++ ((List.range' i todo).map (dirEntry f off)).filter
            (fun e => decide (e.CRC ≠ fileNameListCRC)),
         (((List.range' i todo).map (dirEntry f off)).filter
            (fun e => decide (e.CRC = fileNameListCRC))).getLast?.getD fnh,
         false⟩ := by
  intro todo
  induction todo with
  | zero => intro i fhs fnh _; simp [scanLoop]
  | succ n ih =>
    intro i fhs fnh hsz
    have hr : off + 4 + i * 12 + 12 ≤ f.size := by
      have e : (i + (n + 1)) * 12 = i * 12 + 12 + n * 12 := by ring
      omega
    have hsz2 : off + 4 + (i + 1 + n) * 12 ≤ f.size := by
      have e : i + 1 + n = i + (n + 1) := by omega
      rw [e]; exact hsz
    have hde : decodeFileHeader (f.slice (off + 4 + i * 12) 12) = dirEntry f off i := rfl
    simp only [scanLoop, readAt_of_le f _ 12 hr, List.range'_succ, List.map_cons, hde]
    by_cases hc : (dirEntry f off i).CRC = fileNameListCRC
    · simp only [hc, if_true, ih (i + 1) _ _ hsz2]
      simp [List.filter_cons, hc, getLast?_cons_getD]
    · simp only [hc, if_false, ih (i + 1) _ _ hsz2]
      simp [List.filter_cons, hc]

theorem scanDirectory_readable (f : File) (off count : Nat)
    (h : off + 4 + 12 * count ≤ f.size) :
    scanDirectory f off count =
      ⟨(List.range' 0 count).map (fun j => (off + 4 + j * 12, 12)),
       List.replicate count ⟨0, 0, 0⟩ ++
         (directory f off count).filter (fun e => decide (e.CRC ≠ fileNameListCRC)),
       ((directory f off count).filter
          (fun e => decide (e.CRC = fileNameListCRC))).getLast?.getD ⟨0, 0, 0⟩,
       false⟩ := by
  have h2 : off + 4 + (0 + count) * 12 ≤ f.size := by omega
  exact scanLoop_readable f off count 0 _ _ h2

theorem scanDirectory_failed (f : File) (off count : Nat)
    (h : f.size < off + 4 + 12 * count) (h4 : off + 4 ≤ f.size) :
    (scanDirectory f off count).failed = true := by
  have h2 : f.size < off + 4 + (0 + count) * 12 := by omega
  have h3 : 0 < count := by
    rcases Nat.eq_zero_or_pos count with h0 | h0
    · subst h0; omega
    · exact h0
  exact scanLoop_failed f off count 0 _ _ h3 h2

/-- After a directory that lies within the file, the filename table is
opened at the last directory entry with the reserved checksum, or at the
zero-valued entry when there is none. -/
theorem openFileNames_readable (inflate : List Nat → ZStream) (f : File) (h : PFSHeader)
    (hdir : h.Offset + 4 + 12 * le32 (f.slice h.Offset 4) ≤ f.size) :
    openFileNames inflate f h =
      openDataBlock inflate f
        ((h.Offset, 4) ::
          (List.range' 0 (le32 (f.slice h.Offset 4))).map
            (fun j => (h.Offset + 4 + j * 12, 12)))
        (((directory f h.Offset (le32 (f.slice h.Offset 4))).filter
          (fun e => decide (e.CRC = fileNameListCRC))).getLast?.getD ⟨0, 0, 0⟩) := by
  have h4 : h.Offset + 4 ≤ f.size := by omega
  simp only [openFileNames, readAt_of_le f _ 4 h4, scanDirectory_readable f _ _ hdir]
  simp

/-! ## The compressed block (lines 147-171) -/

/-- A run that ends before the filename table is decoded is not a success. -/
theorem openDataBlock_inl (inflate : List Nat → ZStream) (f : File)
    (reads : List (Nat × Nat)) (fnh : FileHeader) (run : Run)
    (h : openDataBlock inflate f reads fnh = .inl run) :
    run.status ≠ .ok ∧ run.found = none ∧ run.names = [] := by
  unfold openDataBlock at h
  cases h1 : readAt f fnh.Offset 8 with
  | none =>
    simp only [h1, Sum.inl.injEq] at h
    subst h; simp
  | some bb =>
    simp only [h1] at h
    cases h2 : readAt f ((fnh.Offset + 8) % 4294967296)
        (decodeDataBlock bb).CompressedLength with
    | none =>
      simp only [h2, Sum.inl.injEq] at h
      subst h; simp
    | some fileNameBytes =>
      simp only [h2] at h
      cases h3 : zlibNewReader inflate fileNameBytes with
      | error z =>
        simp only [h3, Sum.inl.injEq] at h
        subst h; simp
      | ok r => simp [h3] at h

theorem openFileNames_inl (inflate : List Nat → ZStream) (f : File) (header : PFSHeader)
    (run : Run) (h : openFileNames inflate f header = .inl run) :
    run.status ≠ .ok ∧ run.found = none ∧ run.names = [] := by
  unfold openFileNames at h
  cases h1 : readAt f header.Offset 4 with
  | none =>
    simp only [h1, Sum.inl.injEq] at h
    subst h; simp
  | some db =>
    simp only [h1] at h
    by_cases hf : (scanDirectory f header.Offset (le32 db)).failed = true
    · simp only [hf, if_true, Sum.inl.injEq] at h
      subst h; simp
    · simp only [hf] at h
      exact openDataBlock_inl inflate f _ _ run h

/-- With the zero-valued `fileNameHeader`, the block header is read at
offset 0, so that the compressed length is the directory offset, and the
compressed bytes are read at offset 8, where the format constant of the
header lies: `zlib.NewReader` fails on them. -/
theorem openDataBlock_zero (inflate : List Nat → ZStream) (f : File) (h : PFSHeader)
    (reads : List (Nat × Nat)) (hh : readHeader f = .ok h) :
    openDataBlock inflate f reads ⟨0, 0, 0⟩ =
      .inl ⟨reads ++ [(0, 8)] ++ [(8, h.Offset)], none, [],
        if f.size < 8 + h.Offset then .error .fileNameBytesRead
        else .panic (if h.Offset < 2 then .unexpectedEOF else .header)⟩ := by
  obtain ⟨hsz, hoff, h8, h9⟩ := readHeader_ok f h hh
  have hcl : (decodeDataBlock (f.slice 0 8)).CompressedLength = h.Offset := by
    rw [hoff]
    simp [decodeDataBlock, File.slice, range_eight, range_four, le32]
  have hr8 : readAt f 0 8 = some (f.slice 0 8) := readAt_of_le f 0 8 (by omega)
  simp only [openDataBlock, hr8, hcl]
  have e8 : (0 + 8) % 4294967296 = 8 := by decide
  rw [e8]
  by_cases hlt : f.size < 8 + h.Offset
  · have hn : h.Offset ≠ 0 := by omega
    simp [readAt_of_lt f 8 _ hn hlt, hlt]
  · have hle : 8 + h.Offset ≤ f.size := by omega
    rw [readAt_of_le f 8 _ hle]
    simp only [hlt, if_false]
    rcases Nat.lt_or_ge h.Offset 2 with h2 | h2
    · rcases Nat.eq_zero_or_pos h.Offset with h0 | h0
      · simp [h0, File.slice, zlibNewReader]
      · have h1 : h.Offset = 0 + 1 := by omega
        rw [h1, slice_succ]
        simp [File.slice, zlibNewReader]
    · obtain ⟨k, hk⟩ : ∃ k, h.Offset = k + 1 + 1 := ⟨h.Offset - 2, by omega⟩
      have h2' : ¬ h.Offset < 2 := by omega
      simp only [h2', if_false]
      rw [hk, slice_succ, slice_succ]
      simp [zlibNewReader, h8]

/-- A file with an accepted header and a directory within the file that has
no entry with the reserved checksum: the whole run. -/
theorem loadS3d_no_reserved (inflate : List Nat → ZStream) (f : File) (h : PFSHeader)
    (hh : readHeader f = .ok h)
    (hdir : h.Offset + 4 + 12 * le32 (f.slice h.Offset 4) ≤ f.size)
    (hnone : ∀ e ∈ directory f h.Offset (le32 (f.slice h.Offset 4)),
      e.CRC ≠ fileNameListCRC) :
    loadS3d inflate f =
      ⟨(h.Offset, 4) ::
          (List.range' 0 (le32 (f.slice h.Offset 4))).map
            (fun j => (h.Offset + 4 + j * 12, 12)) ++ [(0, 8)] ++ [(8, h.Offset)],
        none, [],
        if f.size < 8 + h.Offset then .error .fileNameBytesRead
        else .panic (if h.Offset < 2 then .unexpectedEOF else .header)⟩ := by
  have hfil : (directory f h.Offset (le32 (f.slice h.Offset 4))).filter
      (fun e => decide (e.CRC = fileNameListCRC)) = [] := by
    rw [List.filter_eq_nil_iff]
    intro e he
    simpa using hnone e he
  unfold loadS3d
  rw [hh]
  simp only [openFileNames_readable inflate f h hdir, hfil, List.getLast?_nil,
    Option.getD_none, openDataBlock_zero inflate f h _ hh, decodeOpened]

/-! ## The filename table (lines 173-221) -/

/-- The loop of lines 187-209 prints one name per iteration. -/
theorem readNames_length :
    ∀ (todo : Nat) (r : ZStream) (acc : List (List Nat)),
      (readNames todo r acc).2 = .ok →
      (readNames todo r acc).1.length = acc.length + todo := by
  intro todo
  induction todo with
  | zero => intro r acc _; simp [readNames]
  | succ n ih =>
    intro r acc hok
    rcases h1 : r.read 4 with ⟨lb, e1, r1⟩
    cases e1 with
    | some z => simp [readNames, h1] at hok
    | none =>
      rcases h2 : r1.read (le32 (pad 4 lb)) with ⟨nb, e2, r2⟩
      cases e2 with
      | none =>
        simp only [readNames, h1, h2] at hok ⊢
        rw [ih _ _ hok]
        simp; omega
      | some z =>
        cases z
        case eof =>
          simp only [readNames, h1, h2] at hok ⊢
          rw [ih _ _ hok]
          simp; omega
        all_goals simp [readNames, h1, h2] at hok

theorem decodeFileNames_reads (reads : List (Nat × Nat)) (r : ZStream) :
    (decodeFileNames reads r).reads = reads := by
  unfold decodeFileNames
  rcases h1 : r.read 4 with ⟨cb, e1, r1⟩
  cases e1 <;> rfl

/-- Whatever follows, `openDataBlock` first reads the 8-byte block header at
the offset held by `fileNameHeader`. -/
theorem openDataBlock_reads (inflate : List Nat → ZStream) (f : File)
    (reads : List (Nat × Nat)) (fnh : FileHeader) :
    (decodeOpened (openDataBlock inflate f reads fnh)).reads.take (reads.length + 1)
      = reads ++ [(fnh.Offset, 8)] := by
  unfold openDataBlock
  cases h1 : readAt f fnh.Offset 8 with
  | none => simp [decodeOpened, List.take_append_eq_append_take]
  | some bb =>
    simp only
    cases h2 : readAt f ((fnh.Offset + 8) % 4294967296)
        (decodeDataBlock bb).CompressedLength with
    | none => simp [decodeOpened, List.take_append_eq_append_take]
    | some fileNameBytes =>
      simp only
      cases h3 : zlibNewReader inflate fileNameBytes with
      | error z => simp [decodeOpened, List.take_append_eq_append_take]
      | ok r =>
        simp [decodeOpened, decodeFileNames_reads, List.take_append_eq_append_take]

/-! ## Reading a table delivered in one flush -/

theorem le32_le32bytes (n : Nat) (h : n < 4294967296) : le32 (le32bytes n) = n := by
  simp only [le32, le32bytes, List.getD_cons_zero, List.getD_cons_succ, Nat.mod_mod]
  omega

theorem pad_self (bs : List Nat) : pad bs.length bs = bs := by
  simp [pad]

/-- A read that leaves bytes in the last flush returns no error. -/
theorem read_last_lt (last : List Nat) (final : ZErr) (k : Nat) (h : k < last.length) :
    ZStream.read ⟨[], last, final⟩ k = (last.take k, none, ⟨[], last.drop k, final⟩) := by
  have hne : last.drop k ≠ [] := by
    intro hd
    have hl := congrArg List.length hd
    simp at hl
    omega
  simp [ZStream.read, zread, hne]

/-- A read that empties the last flush returns the terminal error with the
bytes. -/
theorem read_last_ge (last : List Nat) (final : ZErr) (k : Nat) (h : last.length ≤ k) :
    ZStream.read ⟨[], last, final⟩ k = (last, some final, ⟨[], [], final⟩) := by
  have hd : last.drop k = [] := List.drop_eq_nil_of_le h
  have ht : last.take k = last := List.take_of_length_le h
  simp [ZStream.read, zread, hd, ht]

/-- The read of a length prefix that is followed by further bytes. -/
theorem read_length_prefix (n : Nat) (rest : List Nat) (final : ZErr) (hrest : rest ≠ []) :
    ZStream.read ⟨[], le32bytes n ++ rest, final⟩ 4
      = (le32bytes n, none, ⟨[], rest, final⟩) := by
  have hpos : 0 < rest.length := List.length_pos.mpr hrest
  have hlt : 4 < (le32bytes n ++ rest).length := by
    simp [le32bytes]; omega
  rw [read_last_lt _ _ _ hlt]
  simp [le32bytes]

/-- The loop of lines 187-209 on complete records that are followed by
further bytes: the names of the records are printed as they stand. -/
theorem readNames_records (final : ZErr) :
    ∀ (names : List (List Nat)) (m : Nat) (rest : List Nat) (acc : List (List Nat)),
      rest ≠ [] → (∀ n ∈ names, n.length < 4294967296) →
      readNames (names.length + m) ⟨[], encodeNames names ++ rest, final⟩ acc
        = readNames m ⟨[], rest, final⟩ (acc ++ names) := by
  intro names
  induction names with
  | nil => intro m rest acc _ _; simp [encodeNames]
  | cons n ns ih =>
    intro m rest acc hrest hlen
    have hn : n.length < 4294967296 := hlen n (List.mem_cons_self _ _)
    have hns : ∀ x ∈ ns, x.length < 4294967296 :=
      fun x hx => hlen x (List.mem_cons_of_mem _ hx)
    have htail : encodeNames ns ++ rest ≠ [] := by simp [hrest]
    have hrest1 : n ++ (encodeNames ns ++ rest) ≠ [] := by simp [hrest]
    have e1 : (n :: ns).length + m = (ns.length + m) + 1 := by simp; omega
    have e2 : encodeNames (n :: ns) ++ rest
        = le32bytes n.length ++ (n ++ (encodeNames ns ++ rest)) := by
      simp [encodeNames]
    have hlt : n.length < (n ++ (encodeNames ns ++ rest)).length := by
      have hpos : 0 < (encodeNames ns ++ rest).length := List.length_pos.mpr htail
      rw [List.length_append]; omega
    have hpad : pad 4 (le32bytes n.length) = le32bytes n.length := by simp [pad, le32bytes]
    rw [e1, e2]
    simp only [readNames, read_length_prefix _ _ _ hrest1, hpad, le32_le32bytes _ hn,
      read_last_lt _ _ _ hlt, List.take_left', List.drop_left', pad_self]
    rw [ih m rest _ hrest hns]
    simp

/-- The count is read from a table that goes on after it. -/
theorem decodeFileNames_table (reads : List (Nat × Nat)) (count : Nat) (rest : List Nat)
    (final : ZErr) (hcount : count < 4294967296) (hrest : rest ≠ []) :
    decodeFileNames reads ⟨[], le32bytes count ++ rest, final⟩
      = ⟨reads, some count, (readNames count ⟨[], rest, final⟩ []).1,
          (readNames count ⟨[], rest, final⟩ []).2⟩ := by
  have hpad : pad 4 (le32bytes count) = le32bytes count := by simp [pad, le32bytes]
  simp only [decodeFileNames, read_length_prefix _ _ _ hrest, hpad, le32_le32bytes _ hcount]

/-- Once the stream is exhausted, the next iteration fails on its length. -/
theorem readNames_exhausted (m : Nat) (final : ZErr) (acc : List (List Nat)) :
    readNames (m + 1) ⟨[], [], final⟩ acc = (acc, .error .fileNameLengthRead) := by
  simp [readNames, read_last_ge [] final 4 (by simp)]

/-- The loop of lines 187-209 on a last record that is cut short: `L` is
declared and the stream ends after `present`, shorter than `L`. -/
theorem readNames_truncated (m L : Nat) (present : List Nat) (acc : List (List Nat))
    (hL : L < 4294967296) (hshort : present.length < L) :
    readNames (m + 1) ⟨[], le32bytes L ++ present, .eof⟩ acc =
      if present = [] then (acc, .error .fileNameLengthRead)
      else if m = 0 then (acc ++ [pad L present], .ok)
      else (acc ++ [pad L present], .error .fileNameLengthRead) := by
  by_cases hp : present = []
  · subst hp
    have h4 : (le32bytes L).length ≤ 4 := by simp [le32bytes]
    simp [readNames, read_last_ge _ .eof 4 h4]
  · have hpad : pad 4 (le32bytes L) = le32bytes L := by simp [pad, le32bytes]
    have hle : present.length ≤ L := by omega
    simp only [readNames, read_length_prefix _ _ _ hp, hpad, le32_le32bytes _ hL,
      read_last_ge _ .eof L hle, hp, if_false]
    cases m with
    | zero => simp [readNames]
    | succ k =>
      rw [readNames_exhausted]
      simp

theorem encodeNames_append (xs ys : List (List Nat)) :
    encodeNames (xs ++ ys) = encodeNames xs ++ encodeNames ys := by
  induction xs with
  | nil => simp [encodeNames]
  | cons x t ih => simp [encodeNames, ih]

/-- The loop of lines 187-209 on a last record that is complete and whose
name is not empty: the read of the name meets `io.EOF`, which is let
through. -/
theorem readNames_last_record (n : List Nat) (acc : List (List Nat))
    (hn : n.length < 4294967296) (hne : n ≠ []) :
    readNames 1 ⟨[], le32bytes n.length ++ n, .eof⟩ acc = (acc ++ [n], .ok) := by
  have hpad : pad 4 (le32bytes n.length) = le32bytes n.length := by simp [pad, le32bytes]
  simp [readNames, read_length_prefix _ _ _ hne, hpad, le32_le32bytes _ hn,
    read_last_ge n .eof n.length (Nat.le_refl _), pad_self]

/-- A filename table that is delivered in one flush ending with `io.EOF`,
and that is the table of the names `init ++ [n]` with `n` not empty, is
decoded to these names. -/
theorem loadS3d_table_one_flush (inflate : List Nat → ZStream) (f : File) (h : PFSHeader)
    (reads : List (Nat × Nat)) (init : List (List Nat)) (n : List Nat)
    (hh : readHeader f = .ok h)
    (hopen : openFileNames inflate f h
      = .inr (reads, ⟨[], encodeTable (init ++ [n]), .eof⟩))
    (hcount : (init ++ [n]).length < 4294967296)
    (hnames : ∀ x ∈ init ++ [n], x.length < 4294967296) (hne : n ≠ []) :
    loadS3d inflate f = ⟨reads, some (init ++ [n]).length, init ++ [n], .ok⟩ := by
  have hinit : ∀ x ∈ init, x.length < 4294967296 :=
    fun x hx => hnames x (List.mem_append_left _ hx)
  have hn : n.length < 4294967296 := hnames n (by simp)
  have hrest : encodeNames (init ++ [n]) ≠ [] := by
    simp [encodeNames_append, encodeNames, le32bytes]
  have hrest2 : le32bytes n.length ++ n ≠ [] := by simp [le32bytes]
  have hlen : (init ++ [n]).length = init.length + 1 := by simp
  have henc : encodeNames (init ++ [n]) = encodeNames init ++ (le32bytes n.length ++ n) := by
    simp [encodeNames_append, encodeNames]
  unfold loadS3d
  simp only [hh, hopen, decodeOpened, encodeTable]
  rw [decodeFileNames_table reads _ _ .eof hcount hrest]
  rw [henc, hlen, readNames_records .eof init 1 _ [] hrest2 hinit,
    readNames_last_record n _ hn hne]
  simp

/-- The archive `twoNames` is decoded to its two names. -/
theorem loadS3d_twoNames :
    loadS3d storedInflate (File.ofList twoNames)
      = ⟨[(53, 4), (57, 12), (69, 12), (81, 12), (12, 8), (20, 33)], some 2,
          [[97, 46, 116, 120, 116], [98, 46, 100, 97, 116]], .ok⟩ :=
  loadS3d_table_one_flush storedInflate (File.ofList twoNames) ⟨53, magicPFS, 131072⟩
    [(53, 4), (57, 12), (69, 12), (81, 12), (12, 8), (20, 33)]
    [[97, 46, 116, 120, 116]] [98, 46, 100, 97, 116] rfl rfl (by decide) (by decide)
    (by decide)

/-! ## The host's memory -/

theorem le32_lt (b : List Nat) : le32 b < 4294967296 := by
  unfold le32
  omega

/-- On a host that gives 4294967295 bytes, the buffer of a name is always
allocated, and the loop is `readNames`. -/
theorem readNamesOn_of_le (mem : Nat) (hmem : 4294967295 ≤ mem) :
    ∀ (todo : Nat) (r : ZStream) (names : List (List Nat)),
      readNamesOn mem todo r names = .inl (readNames todo r names) := by
  intro todo
  induction todo with
  | zero => intro r names; rfl
  | succ n ih =>
    intro r names
    rcases hr : r.read 4 with ⟨lb, e, r1⟩
    cases e with
    | some z => simp [readNamesOn, readNames, hr]
    | none =>
      have hl : ¬ mem < le32 (pad 4 lb) := by
        have := le32_lt (pad 4 lb)
        omega
      rcases hr2 : r1.read (le32 (pad 4 lb)) with ⟨nb, e2, r2⟩
      cases e2 with
      | none => simp [readNamesOn, readNames, hr, hr2, hl, ih]
      | some z =>
        cases z <;> simp [readNamesOn, readNames, hr, hr2, hl, ih]

/-- On a host that gives 12 bytes for each of 4294967295 directory entries,
every `make` of `loadS3d` is served, and the function is `loadS3d`. -/
theorem loadS3dOn_of_le (mem : Nat) (inflate : List Nat → ZStream) (f : File)
    (hmem : 51539607540 ≤ mem) :
    loadS3dOn mem inflate f = .finished (loadS3d inflate f) := by
  unfold loadS3dOn loadS3d
  cases hh : readHeader f with
  | error e => rfl
  | ok header =>
    simp only [openFileNames]
    cases hc : readAt f header.Offset 4 with
    | none => rfl
    | some db =>
      have h1 : ¬ mem < 12 * le32 db := by
        have := le32_lt db
        omega
      simp only [h1, if_false]
      by_cases hf : (scanDirectory f header.Offset (le32 db)).failed = true
      · simp [hf, decodeOpened]
      · simp only [hf]
        simp only [loadFileNamesOn, openDataBlock]
        cases hb : readAt f (scanDirectory f header.Offset (le32 db)).fileNameHeader.Offset 8 with
        | none => simp [decodeOpened]
        | some bb =>
          have h2 : ¬ mem < (decodeDataBlock bb).CompressedLength := by
            have : (decodeDataBlock bb).CompressedLength < 4294967296 := le32_lt _
            omega
          simp only [h2, if_false]
          cases hz : readAt f
              (((scanDirectory f header.Offset (le32 db)).fileNameHeader.Offset + 8) % 4294967296)
              (decodeDataBlock bb).CompressedLength with
          | none => simp [decodeOpened]
          | some fileNameBytes =>
            cases hn : zlibNewReader inflate fileNameBytes with
            | error z => simp [hn, decodeOpened]
            | ok r =>
              simp only [hn, decodeOpened, decodeFileNamesOn, decodeFileNames]
              rcases hr : r.read 4 with ⟨cb, e, r1⟩
              cases e with
              | some z => simp [hr]
              | none => simp [hr, readNamesOn_of_le mem (by omega)]

/-- The slice of line 123 cannot be allocated: the process is ended after
the read of the entry count, before any directory record is read. -/
theorem loadS3dOn_out_of_memory (mem : Nat) (inflate : List Nat → ZStream) (f : File)
    (h : PFSHeader) (hh : readHeader f = .ok h) (h4 : h.Offset + 4 ≤ f.size)
    (hm : mem < 12 * le32 (f.slice h.Offset 4)) :
    loadS3dOn mem inflate f = .outOfMemory 123 [(h.Offset, 4)] none [] := by
  unfold loadS3dOn
  simp only [hh, readAt_of_le f _ 4 h4, hm, if_true]

/-- A file that ends before the end of its directory, on a host that gives
the bytes of the slice of line 123: no other `make` is reached, and the
function is `loadS3d`. -/
theorem loadS3dOn_truncated_directory (mem : Nat) (inflate : List Nat → ZStream) (f : File)
    (h : PFSHeader) (hh : readHeader f = .ok h)
    (hlt : f.size < h.Offset + 4 + 12 * le32 (f.slice h.Offset 4))
    (hm : 12 * le32 (f.slice h.Offset 4) ≤ mem) :
    loadS3dOn mem inflate f = .finished (loadS3d inflate f) := by
  unfold loadS3dOn loadS3d
  simp only [hh, openFileNames]
  by_cases h4 : h.Offset + 4 ≤ f.size
  · have hm2 : ¬ mem < 12 * le32 (f.slice h.Offset 4) := by omega
    simp [readAt_of_le f _ 4 h4, hm2, scanDirectory_failed f _ _ hlt h4, decodeOpened]
  · rw [readAt_of_lt f _ 4 (by decide) (by omega)]
    simp [decodeOpened]

/-- The scan of a directory that declares an entry, in a file that ends
before the end of the first record. -/
theorem scanDirectory_first_record_missing (f : File) (off count : Nat) (hc : 0 < count)
    (hsz : f.size < off + 4 + 12) :
    scanDirectory f off count
      = ⟨[(off + 4, 12)], List.replicate count ⟨0, 0, 0⟩, ⟨0, 0, 0⟩, true⟩ := by
  obtain ⟨n, rfl⟩ : ∃ n, count = n + 1 := ⟨count - 1, by omega⟩
  have hr : f.size < off + 4 + 0 * 12 + 12 := by omega
  simp [scanDirectory, scanLoop, readAt_of_lt f _ 12 (by decide) hr]

/-- A file that holds the entry count of its directory, not zero, and ends
before the end of the first record: where the slice of line 123 is
allocated, `loadS3d` returns the error of the read of a record. -/
theorem loadS3d_first_record_missing (inflate : List Nat → ZStream) (f : File)
    (h : PFSHeader) (hh : readHeader f = .ok h) (h4 : h.Offset + 4 ≤ f.size)
    (hc : 0 < le32 (f.slice h.Offset 4)) (hsz : f.size < h.Offset + 4 + 12) :
    loadS3d inflate f
      = ⟨[(h.Offset, 4), (h.Offset + 4, 12)], none, [], .error .fileHeaderRead⟩ := by
  unfold loadS3d
  simp only [hh, openFileNames, readAt_of_le f _ 4 h4,
    scanDirectory_first_record_missing f _ _ hc hsz]
  simp [decodeOpened]

/-! ## The claims -/

/-- C1. A file of at least 12 bytes whose bytes [4,8) are not `"PFS "` or
whose little-endian `u32` at [8,12) is not 131072 is rejected by `loadS3d`
with the magic-cookie error, respectively the format-constant error, whatever
else the file holds: no positional read is issued and nothing is decoded. -/
theorem loadS3d_rejects_bad_header (inflate : List Nat → ZStream) (f : File)
    (hsize : 12 ≤ f.size)
    (hbad : f.slice 4 4 ≠ magicPFS ∨ le32 (f.slice 8 4) ≠ 131072) :
    loadS3d inflate f =
      ⟨[], none, [],
        .error (if f.slice 4 4 ≠ magicPFS then .magicCookie else .unknownValue)⟩ := by
  unfold loadS3d readHeader
  rw [readHeaderBytes_full f hsize]
  simp only [decodePFSHeader_slice]
  by_cases hm : f.slice 4 4 = magicPFS
  · have hv : le32 (f.slice 8 4) ≠ 131072 := by
      rcases hbad with h | h
      · exact absurd hm h
      · exact h
    simp [hm, hv]
  · simp [hm]

/-- The header with magic `"XYZ "` is rejected with the magic-cookie error. -/
theorem loadS3d_rejects_bad_header_witness :
    12 ≤ (File.ofList xyzHeader).size ∧
    (File.ofList xyzHeader).slice 4 4 ≠ magicPFS ∧
    loadS3d storedInflate (File.ofList xyzHeader) = ⟨[], none, [], .error .magicCookie⟩ :=
  ⟨by decide, by decide,
    loadS3d_rejects_bad_header storedInflate (File.ofList xyzHeader) (by decide)
      (Or.inl (by decide))⟩

/-- C2, on the code: the 11-byte file `elevenBytes` is not rejected at the
header stage. Its header is completed with a zero byte and accepted, the
entry count is read at offset 7, and the error returned is the one of the
read of the first directory record. -/
theorem loadS3d_eleven_byte_file :
    (File.ofList elevenBytes).size = 11 ∧
    readHeader (File.ofList elevenBytes) = .ok ⟨7, magicPFS, 131072⟩ ∧
    loadS3d storedInflate (File.ofList elevenBytes)
      = ⟨[(7, 4), (11, 12)], none, [], .error .fileHeaderRead⟩ :=
  ⟨by decide, rfl, by decide⟩

/-- Where the slice of line 123 is allocated, a file with an accepted header
`h` that is shorter than `directory_offset + 4 + 12 * entry_count` is
rejected by `loadS3d`: with the error of the read of the entry count when the
four bytes of the count do not lie within the file, and with the error of the
read of a directory record otherwise. No name is decoded. -/
theorem loadS3d_truncated_directory (inflate : List Nat → ZStream) (f : File)
    (h : PFSHeader) (hh : readHeader f = .ok h)
    (hlt : f.size < h.Offset + 4 + 12 * le32 (f.slice h.Offset 4)) :
    (loadS3d inflate f).status
        = .error (if f.size < h.Offset + 4 then .directoryHeaderRead else .fileHeaderRead) ∧
      (loadS3d inflate f).found = none ∧ (loadS3d inflate f).names = [] := by
  unfold loadS3d
  rw [hh]
  simp only [openFileNames]
  by_cases h4 : h.Offset + 4 ≤ f.size
  · have h5 : ¬ f.size < h.Offset + 4 := by omega
    rw [readAt_of_le f _ 4 h4]
    simp [scanDirectory_failed f _ _ hlt h4, h5, decodeOpened]
  · have h5 : f.size < h.Offset + 4 := by omega
    rw [readAt_of_lt f _ 4 (by decide) h5]
    simp [h5, decodeOpened]

/-- A directory declaring five entries in a file that ends after two records
is rejected with the error of the read of a directory record. -/
theorem loadS3d_fiveDeclaredTwoPresent :
    readHeader (File.ofList fiveDeclaredTwoPresent) = .ok ⟨12, magicPFS, 131072⟩ ∧
    le32 ((File.ofList fiveDeclaredTwoPresent).slice 12 4) = 5 ∧
    (File.ofList fiveDeclaredTwoPresent).size = 12 + 4 + 12 * 2 ∧
    (loadS3d storedInflate (File.ofList fiveDeclaredTwoPresent)).status
      = .error .fileHeaderRead :=
  ⟨rfl, by decide, by decide,
    (loadS3d_truncated_directory storedInflate (File.ofList fiveDeclaredTwoPresent)
      ⟨12, magicPFS, 131072⟩ rfl (by decide)).1⟩

/-- C3, on the code: `hugeCount` is a file of 16 bytes with a valid header
and a directory that declares 4294967295 entries and holds no record, so it
is shorter than `directory_offset + 4 + 12 * entry_count`. Line 123 asks for
the 51539607540 bytes of the slice `fileHeaders` before any record is read.
On a host that does not give them, whatever the decompressor, the process is
ended there, after the read of the count: `loadS3d` returns no error. On a
host that gives them, `loadS3d` returns the error of the read of a record. -/
theorem loadS3dOn_hugeCount :
    readHeader (File.ofList hugeCount) = .ok ⟨12, magicPFS, 131072⟩ ∧
    (File.ofList hugeCount).size = 16 ∧
    le32 ((File.ofList hugeCount).slice 12 4) = 4294967295 ∧
    (∀ (inflate : List Nat → ZStream) (mem : Nat), mem < 51539607540 →
      loadS3dOn mem inflate (File.ofList hugeCount)
        = .outOfMemory 123 [(12, 4)] none []) ∧
    (∀ (inflate : List Nat → ZStream) (mem : Nat), 51539607540 ≤ mem →
      loadS3dOn mem inflate (File.ofList hugeCount)
        = .finished ⟨[(12, 4), (16, 12)], none, [], .error .fileHeaderRead⟩) := by
  have hc : le32 ((File.ofList hugeCount).slice 12 4) = 4294967295 := by decide
  refine ⟨rfl, by decide, hc, fun inflate mem hm => ?_, fun inflate mem hm => ?_⟩
  · exact loadS3dOn_out_of_memory mem inflate (File.ofList hugeCount)
      ⟨12, magicPFS, 131072⟩ rfl (by decide) (by rw [hc]; omega)
  · rw [loadS3dOn_of_le mem inflate _ hm,
      loadS3d_first_record_missing inflate (File.ofList hugeCount) ⟨12, magicPFS, 131072⟩
        rfl (by decide) (by rw [hc]; decide) (by decide)]

/-- C4, refuted as stated: the directory of `noReserved` is read in full and
has no entry with the reserved checksum, yet no error is returned for the
missing filename table. A block header is read at offset 0 and twelve
compressed bytes at offset 8, and the call ends in the panic of line 170. -/
theorem loadS3d_missing_table_counterexample :
    readHeader (File.ofList noReserved) = .ok ⟨12, magicPFS, 131072⟩ ∧
    directory (File.ofList noReserved) 12 2 = [⟨1, 100, 5⟩, ⟨2, 200, 6⟩] ∧
    loadS3d storedInflate (File.ofList noReserved)
      = ⟨[(12, 4), (16, 12), (28, 12), (0, 8), (8, 12)], none, [], .panic .header⟩ :=
  ⟨rfl, by decide, by decide⟩

/-- C4, amended. For a file with an accepted header `h` and a directory that
lies within the file and has no entry with the reserved checksum, `loadS3d`
does not succeed, but the scan of the directory reports nothing: after the
reads of the count and of every record, the 8-byte block header is read at
offset 0, on behalf of the zero-valued filename entry, and then
`directory_offset` compressed bytes at offset 8. -/
theorem loadS3d_missing_table (inflate : List Nat → ZStream) (f : File) (h : PFSHeader)
    (hh : readHeader f = .ok h)
    (hdir : h.Offset + 4 + 12 * le32 (f.slice h.Offset 4) ≤ f.size)
    (hnone : ∀ e ∈ directory f h.Offset (le32 (f.slice h.Offset 4)),
      e.CRC ≠ fileNameListCRC) :
    (loadS3d inflate f).status ≠ .ok ∧
    (loadS3d inflate f).reads =
      (h.Offset, 4) ::
        (List.range' 0 (le32 (f.slice h.Offset 4))).map
          (fun j => (h.Offset + 4 + j * 12, 12)) ++ [(0, 8)] ++ [(8, h.Offset)] := by
  rw [loadS3d_no_reserved inflate f h hh hdir hnone]
  refine ⟨?_, rfl⟩
  by_cases hlt : f.size < 8 + h.Offset
  · simp [hlt]
  · simp [hlt]

/-- The amended C4 on `noReserved`. -/
theorem loadS3d_missing_table_witness :
    readHeader (File.ofList noReserved) = .ok ⟨12, magicPFS, 131072⟩ ∧
    (loadS3d storedInflate (File.ofList noReserved)).status ≠ .ok ∧
    (loadS3d storedInflate (File.ofList noReserved)).reads
      = [(12, 4), (16, 12), (28, 12), (0, 8), (8, 12)] :=
  ⟨rfl,
    loadS3d_missing_table storedInflate (File.ofList noReserved) ⟨12, magicPFS, 131072⟩
      rfl (by decide) (by decide)⟩

/-- C5, refuted as stated: the directory of `twoReserved` is read in full and
has two entries with the reserved checksum (the first and the third), and
`loadS3d` succeeds: it decodes the two names of the table the third entry
points at. -/
theorem loadS3d_two_reserved_counterexample :
    readHeader (File.ofList twoReserved) = .ok ⟨53, magicPFS, 131072⟩ ∧
    directory (File.ofList twoReserved) 53 4
      = [⟨fileNameListCRC, 0, 0⟩, ⟨7, 100, 5⟩, ⟨fileNameListCRC, 12, 41⟩, ⟨9, 200, 6⟩] ∧
    loadS3d storedInflate (File.ofList twoReserved)
      = ⟨[(53, 4), (57, 12), (69, 12), (81, 12), (93, 12), (12, 8), (20, 33)], some 2,
          [[97, 46, 116, 120, 116], [98, 46, 100, 97, 116]], .ok⟩ :=
  ⟨rfl, by decide, by decide⟩

/-- C5, amended. For a file with an accepted header `h` and a directory that
lies within the file, several entries with the reserved checksum are not an
error: the last of them in directory order, `e`, is the filename entry.
`loadS3d` goes on as lines 147-221 do with `e`, its first read after the
directory being the 8-byte block header at `e.Offset`. -/
theorem loadS3d_last_reserved (inflate : List Nat → ZStream) (f : File) (h : PFSHeader)
    (e : FileHeader) (hh : readHeader f = .ok h)
    (hdir : h.Offset + 4 + 12 * le32 (f.slice h.Offset 4) ≤ f.size)
    (hlast : ((directory f h.Offset (le32 (f.slice h.Offset 4))).filter
      (fun x => decide (x.CRC = fileNameListCRC))).getLast? = some e) :
    loadS3d inflate f =
      decodeOpened (openDataBlock inflate f
        ((h.Offset, 4) ::
          (List.range' 0 (le32 (f.slice h.Offset 4))).map
            (fun j => (h.Offset + 4 + j * 12, 12))) e) ∧
    (loadS3d inflate f).reads.take (le32 (f.slice h.Offset 4) + 2) =
      (h.Offset, 4) ::
        (List.range' 0 (le32 (f.slice h.Offset 4))).map
          (fun j => (h.Offset + 4 + j * 12, 12)) ++ [(e.Offset, 8)] := by
  have key : loadS3d inflate f =
      decodeOpened (openDataBlock inflate f
        ((h.Offset, 4) ::
          (List.range' 0 (le32 (f.slice h.Offset 4))).map
            (fun j => (h.Offset + 4 + j * 12, 12))) e) := by
    unfold loadS3d
    rw [hh]
    simp only [openFileNames_readable inflate f h hdir, hlast, Option.getD_some]
  refine ⟨key, ?_⟩
  rw [key]
  have hr := openDataBlock_reads inflate f
    ((h.Offset, 4) ::
      (List.range' 0 (le32 (f.slice h.Offset 4))).map
        (fun j => (h.Offset + 4 + j * 12, 12))) e
  simp only [List.length_cons, List.length_map, List.length_range'] at hr
  simpa using hr

/-- The amended C5 on `twoReserved`, whose last entry with the reserved
checksum has payload offset 12. -/
theorem loadS3d_last_reserved_witness :
    readHeader (File.ofList twoReserved) = .ok ⟨53, magicPFS, 131072⟩ ∧
    ((directory (File.ofList twoReserved) 53 4).filter
      (fun x => decide (x.CRC = fileNameListCRC))) = [⟨fileNameListCRC, 0, 0⟩, ⟨fileNameListCRC, 12, 41⟩] ∧
    (loadS3d storedInflate (File.ofList twoReserved)).reads.take 6
      = [(53, 4), (57, 12), (69, 12), (81, 12), (93, 12), (12, 8)] :=
  ⟨rfl, by decide,
    (loadS3d_last_reserved storedInflate (File.ofList twoReserved) ⟨53, magicPFS, 131072⟩
      ⟨fileNameListCRC, 12, 41⟩ rfl (by decide) (by decide)).2⟩

/-- C6, refuted as stated: the directory of `threeNamesFourEntries` has four
entries beside the reserved one, its filename table holds three names, and
`loadS3d` succeeds with the three names. -/
theorem loadS3d_name_count_counterexample :
    directory (File.ofList threeNamesFourEntries) 50 5
      = [⟨fileNameListCRC, 12, 38⟩, ⟨1, 100, 5⟩, ⟨2, 200, 6⟩, ⟨3, 300, 7⟩, ⟨4, 400, 8⟩] ∧
    loadS3d storedInflate (File.ofList threeNamesFourEntries)
      = ⟨[(50, 4), (54, 12), (66, 12), (78, 12), (90, 12), (102, 12), (12, 8), (20, 30)],
          some 3, [[97], [98], [99]], .ok⟩ :=
  ⟨by decide, by decide⟩

/-- C6, amended. Whenever `loadS3d` succeeds, the number of names it decodes
is the count it read at the head of the inflated filename table and printed
(line 185); the directory has no part in it. -/
theorem loadS3d_name_count (inflate : List Nat → ZStream) (f : File)
    (hok : (loadS3d inflate f).status = .ok) :
    (loadS3d inflate f).found = some (loadS3d inflate f).names.length := by
  unfold loadS3d at hok ⊢
  cases hh : readHeader f with
  | error e => simp [hh] at hok
  | ok header =>
    simp only [hh] at hok ⊢
    cases ho : openFileNames inflate f header with
    | inl run =>
      simp only [ho, decodeOpened] at hok ⊢
      exact absurd hok (openFileNames_inl inflate f header run ho).1
    | inr p =>
      obtain ⟨reads, r⟩ := p
      simp only [ho, decodeOpened] at hok ⊢
      unfold decodeFileNames at hok ⊢
      rcases h1 : r.read 4 with ⟨cb, e1, r1⟩
      cases e1 with
      | some z => simp [h1] at hok
      | none =>
        simp only [h1] at hok ⊢
        have hlen := readNames_length _ _ _ hok
        simp at hlen
        simp [hlen]

/-- The amended C6 on `twoNames`: the table declares two names and two names
are decoded. -/
theorem loadS3d_name_count_witness :
    (loadS3d storedInflate (File.ofList twoNames)).status = .ok ∧
    (loadS3d storedInflate (File.ofList twoNames)).names
      = [[97, 46, 116, 120, 116], [98, 46, 100, 97, 116]] ∧
    (loadS3d storedInflate (File.ofList twoNames)).found
      = some (loadS3d storedInflate (File.ofList twoNames)).names.length :=
  ⟨by decide, by decide,
    loadS3d_name_count storedInflate (File.ofList twoNames) (by decide)⟩

/-- C7, on the code: the reserved entry of `badZlibHeader` points at the two
compressed bytes `12 34`; `zlib.NewReader` rejects them and `loadS3d` panics
(line 170) instead of returning an error, whatever the decompressor. The same
happens on the 12-byte file that is a valid header with directory offset 0,
whose compressed bytes are empty. -/
theorem loadS3d_panics_on_bad_zlib_header (inflate : List Nat → ZStream) :
    loadS3d inflate (File.ofList badZlibHeader)
      = ⟨[(22, 4), (26, 12), (38, 12), (12, 8), (20, 2)], none, [], .panic .header⟩ ∧
    loadS3d inflate (File.ofList [0, 0, 0, 0, 80, 70, 83, 32, 0, 0, 2, 0])
      = ⟨[(0, 4), (0, 8), (8, 0)], none, [], .panic .unexpectedEOF⟩ :=
  ⟨rfl, rfl⟩

/-- C8, on the code: `noNames` is a well-formed archive built from the empty
list of names. Its filename table inflates to the four bytes of the count 0,
which the reader delivers together with `io.EOF`, and `loadS3d` returns the
error of the read of the count. -/
theorem loadS3d_no_names :
    zlibNewReader storedInflate ((File.ofList noNames).slice 20 15)
      = .ok ⟨[], encodeTable [], .eof⟩ ∧
    loadS3d storedInflate (File.ofList noNames)
      = ⟨[(35, 4), (39, 12), (12, 8), (20, 15)], none, [], .error .fileNameCountRead⟩ :=
  ⟨rfl, by decide⟩

/-- C9, on the code: the filename table of `truncatedName` inflates to the
count 1, the length 5 and only the two bytes `ab`. The read of the name into
the buffer of 5 bytes returns 2 bytes and `io.EOF`; line 204 discards the
byte count and line 205 lets `io.EOF` through, so `loadS3d` succeeds,
yielding the name `ab` followed by three zero bytes that were not in the
stream. -/
theorem loadS3d_name_cut_short :
    zlibNewReader storedInflate ((File.ofList truncatedName).slice 20 21)
      = .ok ⟨[], [1, 0, 0, 0, 5, 0, 0, 0, 97, 98], .eof⟩ ∧
    ZStream.read ⟨[], [97, 98], .eof⟩ 5 = ([97, 98], some .eof, ⟨[], [], .eof⟩) ∧
    loadS3d storedInflate (File.ofList truncatedName)
      = ⟨[(41, 4), (45, 12), (57, 12), (12, 8), (20, 21)], some 1, [[97, 98, 0, 0, 0]], .ok⟩ :=
  ⟨rfl, by decide, by decide⟩

/-- What the loop of lines 187-209 makes of a table that ends partway through
a name. Let the filename table of `f` be delivered by the decompressor in
one flush that ends with `io.EOF`, and let it end partway through a
name: it holds the count, the complete records of `names`, fewer
than the count, and then a record that declares `L` bytes of which only
`present`, shorter than `L`, are there. The complete names are yielded as
they stand. If `present` is empty, or if the count asks for more records
than this one, `loadS3d` returns the error of the read of a length; if
`present` is not empty and the record is the last one of the count,
`loadS3d` succeeds. Whenever `present` is not empty, the name yielded for the
record is `present` followed by zero bytes up to `L`. -/
theorem loadS3d_truncated_name (inflate : List Nat → ZStream) (f : File) (h : PFSHeader)
    (reads : List (Nat × Nat)) (count L : Nat) (names : List (List Nat))
    (present : List Nat)
    (hh : readHeader f = .ok h)
    (hopen : openFileNames inflate f h = .inr (reads,
      ⟨[], le32bytes count ++ (encodeNames names ++ (le32bytes L ++ present)), .eof⟩))
    (hcount : count < 4294967296) (hL : L < 4294967296)
    (hnames : ∀ n ∈ names, n.length < 4294967296)
    (hmore : names.length < count) (hshort : present.length < L) :
    (loadS3d inflate f).names
      = names ++ (if present = [] then [] else [pad L present]) ∧
    (loadS3d inflate f).status
      = if present ≠ [] ∧ names.length + 1 = count then .ok
        else .error .fileNameLengthRead := by
  obtain ⟨m, hm⟩ : ∃ m, count = names.length + (m + 1) := ⟨count - names.length - 1, by omega⟩
  have hrest : encodeNames names ++ (le32bytes L ++ present) ≠ [] := by simp [le32bytes]
  have hrest2 : le32bytes L ++ present ≠ [] := by simp [le32bytes]
  have hrun : loadS3d inflate f =
      ⟨reads, some count,
        (readNames (m + 1) ⟨[], le32bytes L ++ present, .eof⟩ ([] ++ names)).1,
        (readNames (m + 1) ⟨[], le32bytes L ++ present, .eof⟩ ([] ++ names)).2⟩ := by
    unfold loadS3d
    simp only [hh, hopen, decodeOpened]
    rw [decodeFileNames_table reads count _ .eof hcount hrest]
    rw [hm, readNames_records .eof names (m + 1) _ [] hrest2 hnames]
  rw [hrun, readNames_truncated m L present _ hL hshort]
  by_cases hp : present = []
  · simp [hp]
  · by_cases hm0 : m = 0
    · have hc : names.length + 1 = count := by omega
      simp [hp, hm0, hc]
    · have hc : ¬ names.length + 1 = count := by omega
      simp [hp, hm0, hc]

/-- The archive `truncatedName` has no complete record, and a last record
declaring 5 bytes of which `ab` is there. -/
theorem loadS3d_truncated_name_truncatedName :
    (loadS3d storedInflate (File.ofList truncatedName)).names = [[97, 98, 0, 0, 0]] ∧
    (loadS3d storedInflate (File.ofList truncatedName)).status = .ok :=
  loadS3d_truncated_name storedInflate (File.ofList truncatedName) ⟨41, magicPFS, 131072⟩
    [(41, 4), (45, 12), (57, 12), (12, 8), (20, 21)] 1 5 [] [97, 98] rfl rfl
    (by decide) (by decide) (by decide) (by decide) (by decide)

/-- C10, on the code: the filename table of `flushedShortLength` inflates to
the count 1 followed by two bytes only, so the stream ends before the length
of the first name can be read in full. The two bytes come in a flush of
their own, which the reader delivers without an error: `loadS3d` takes the
length to be 0, meets `io.EOF` on the read of the name, and succeeds with
one empty name. -/
theorem loadS3d_flushed_short_length :
    zlibNewReader storedInflate ((File.ofList flushedShortLength).slice 20 27)
      = .ok ⟨[[1, 0, 0, 0, 0, 0]], [], .eof⟩ ∧
    loadS3d storedInflate (File.ofList flushedShortLength)
      = ⟨[(47, 4), (51, 12), (63, 12), (12, 8), (20, 27)], some 1, [[]], .ok⟩ :=
  ⟨rfl, by decide⟩

/-! ## The claims, continued -/

/-- The `u32` decoded from four bytes of a file is their little-endian
value. -/
theorem le32_slice (f : File) (off : Nat) :
    le32 (f.slice off 4)
      = f.byte off + 256 * f.byte (off + 1) + 65536 * f.byte (off + 2)
          + 16777216 * f.byte (off + 3) := by
  have b0 := f.byte_lt off
  have b1 := f.byte_lt (off + 1)
  have b2 := f.byte_lt (off + 2)
  have b3 := f.byte_lt (off + 3)
  simp only [le32, File.slice, range_four, List.map_cons, List.map_nil, List.getD_cons_zero,
    List.getD_cons_succ, Nat.add_zero, Nat.mod_eq_of_lt b0, Nat.mod_eq_of_lt b1,
    Nat.mod_eq_of_lt b2, Nat.mod_eq_of_lt b3]

theorem slice_twelve (f : File) (off : Nat) :
    f.slice off 12 = [f.byte off, f.byte (off + 1), f.byte (off + 2), f.byte (off + 3),
      f.byte (off + 4), f.byte (off + 5), f.byte (off + 6), f.byte (off + 7),
      f.byte (off + 8), f.byte (off + 9), f.byte (off + 10), f.byte (off + 11)] := by
  simp [File.slice, range_twelve]

/-- The header as a function of the first 12 bytes. -/
theorem decodePFSHeader_bytes (x : File) :
    decodePFSHeader (x.slice 0 12)
      = ⟨x.byte 0 + 256 * x.byte 1 + 65536 * x.byte 2 + 16777216 * x.byte 3,
         [x.byte 4, x.byte 5, x.byte 6, x.byte 7],
         x.byte 8 + 256 * x.byte 9 + 65536 * x.byte 10 + 16777216 * x.byte 11⟩ := by
  rw [decodePFSHeader_slice, le32_slice, le32_slice]
  simp [File.slice, range_four]

/-- C14. On files `f` and `g` of at least 12 bytes, the header buffer is the
first 12 bytes of the file and is decoded as: directory offset, the
little-endian `u32` of bytes [0,4); magic, the bytes [4,8) as they stand;
format constant, the little-endian `u32` of bytes [8,12). Decoding is
injective: when the headers decoded from `g` and `f` are equal, so are the
first 12 bytes of `g` and `f`. -/
theorem header_decoding (f g : File) (hf : 12 ≤ f.size) (hg : 12 ≤ g.size) :
    (readHeaderBytes f = some (f.slice 0 12) ∧ readHeaderBytes g = some (g.slice 0 12)) ∧
    decodePFSHeader (f.slice 0 12)
      = ⟨f.byte 0 + 256 * f.byte 1 + 65536 * f.byte 2 + 16777216 * f.byte 3,
         [f.byte 4, f.byte 5, f.byte 6, f.byte 7],
         f.byte 8 + 256 * f.byte 9 + 65536 * f.byte 10 + 16777216 * f.byte 11⟩ ∧
    (decodePFSHeader (g.slice 0 12) = decodePFSHeader (f.slice 0 12) →
      g.slice 0 12 = f.slice 0 12) := by
  refine ⟨⟨readHeaderBytes_full f hf, readHeaderBytes_full g hg⟩,
    decodePFSHeader_bytes f, ?_⟩
  intro h
  rw [decodePFSHeader_bytes f, decodePFSHeader_bytes g] at h
  simp only [PFSHeader.mk.injEq, List.cons.injEq, and_true] at h
  obtain ⟨h1, ⟨h4, h5, h6, h7⟩, h2⟩ := h
  have f0 := f.byte_lt 0
  have f1 := f.byte_lt 1
  have f2 := f.byte_lt 2
  have f3 := f.byte_lt 3
  have f8 := f.byte_lt 8
  have f9 := f.byte_lt 9
  have f10 := f.byte_lt 10
  have f11 := f.byte_lt 11
  have g0 := g.byte_lt 0
  have g1 := g.byte_lt 1
  have g2 := g.byte_lt 2
  have g3 := g.byte_lt 3
  have g8 := g.byte_lt 8
  have g9 := g.byte_lt 9
  have g10 := g.byte_lt 10
  have g11 := g.byte_lt 11
  have e0 : g.byte 0 = f.byte 0 := by omega
  have e1 : g.byte 1 = f.byte 1 := by omega
  have e2 : g.byte 2 = f.byte 2 := by omega
  have e3 : g.byte 3 = f.byte 3 := by omega
  have e8 : g.byte 8 = f.byte 8 := by omega
  have e9 : g.byte 9 = f.byte 9 := by omega
  have e10 : g.byte 10 = f.byte 10 := by omega
  have e11 : g.byte 11 = f.byte 11 := by omega
  rw [slice_twelve, slice_twelve]
  simp [e0, e1, e2, e3, h4, h5, h6, h7, e8, e9, e10, e11]

/-- C14 on `twoNames` and `twoReserved`, which have the same header: it is
decoded to the directory offset 53, the magic `"PFS "` and the format
constant 131072. -/
theorem header_decoding_witness :
    decodePFSHeader ((File.ofList twoNames).slice 0 12) = ⟨53, magicPFS, 131072⟩ ∧
    (File.ofList twoReserved).slice 0 12 = (File.ofList twoNames).slice 0 12 :=
  ⟨(header_decoding (File.ofList twoNames) (File.ofList twoReserved)
      (by decide) (by decide)).2.1,
    (header_decoding (File.ofList twoNames) (File.ofList twoReserved)
      (by decide) (by decide)).2.2 (by decide)⟩

/-- A directory record as a function of its 12 bytes. -/
theorem dirEntry_bytes (f : File) (off i : Nat) :
    dirEntry f off i
      = ⟨f.byte (off + 4 + i * 12) + 256 * f.byte (off + 4 + i * 12 + 1)
            + 65536 * f.byte (off + 4 + i * 12 + 2)
            + 16777216 * f.byte (off + 4 + i * 12 + 3),
         f.byte (off + 4 + i * 12 + 4) + 256 * f.byte (off + 4 + i * 12 + 5)
            + 65536 * f.byte (off + 4 + i * 12 + 6)
            + 16777216 * f.byte (off + 4 + i * 12 + 7),
         f.byte (off + 4 + i * 12 + 8) + 256 * f.byte (off + 4 + i * 12 + 9)
            + 65536 * f.byte (off + 4 + i * 12 + 10)
            + 16777216 * f.byte (off + 4 + i * 12 + 11)⟩ := by
  have b := fun k => f.byte_lt (off + 4 + i * 12 + k)
  rw [dirEntry, decodeFileHeader, slice_twelve]
  simp only [le32, List.drop, List.getD_cons_zero,
    List.getD_cons_succ, Nat.mod_eq_of_lt (b 1), Nat.mod_eq_of_lt (b 2),
    Nat.mod_eq_of_lt (b 3), Nat.mod_eq_of_lt (b 4), Nat.mod_eq_of_lt (b 5),
    Nat.mod_eq_of_lt (b 6), Nat.mod_eq_of_lt (b 7), Nat.mod_eq_of_lt (b 8),
    Nat.mod_eq_of_lt (b 9), Nat.mod_eq_of_lt (b 10), Nat.mod_eq_of_lt (b 11),
    Nat.mod_eq_of_lt (f.byte_lt (off + 4 + i * 12))]

/-- The reads issued before the block of the filename table are kept at the
head of the reads of the run. -/
theorem openDataBlock_reads_prefix (inflate : List Nat → ZStream) (f : File)
    (reads : List (Nat × Nat)) (fnh : FileHeader) :
    (decodeOpened (openDataBlock inflate f reads fnh)).reads.take reads.length = reads := by
  have h := congrArg (List.take reads.length) (openDataBlock_reads inflate f reads fnh)
  rw [List.take_take] at h
  simpa using h

/-- C15. For a file with an accepted header `h` and a directory that lies
within the file: the entry count is the little-endian `u32` at the absolute
offset `directory_offset`; `loadS3d` then reads, for each `i` below the
count, the 12 bytes at the absolute offset `directory_offset + 4 + 12 * i`, a
sum of natural numbers that does not wrap; the `i`-th entry is decoded from
them as little-endian checksum, payload offset and payload size, in that
order; and these entries are what the scan keeps (the last one with the
reserved checksum as `fileNameHeader`, the others appended to
`fileHeaders`). -/
theorem directory_decoding (inflate : List Nat → ZStream) (f : File) (h : PFSHeader)
    (hh : readHeader f = .ok h)
    (hdir : h.Offset + 4 + 12 * le32 (f.slice h.Offset 4) ≤ f.size) :
    (readAt f h.Offset 4 = some (f.slice h.Offset 4) ∧
      le32 (f.slice h.Offset 4)
        = f.byte h.Offset + 256 * f.byte (h.Offset + 1) + 65536 * f.byte (h.Offset + 2)
            + 16777216 * f.byte (h.Offset + 3)) ∧
    (loadS3d inflate f).reads.take (le32 (f.slice h.Offset 4) + 1)
      = (h.Offset, 4) ::
          (List.range' 0 (le32 (f.slice h.Offset 4))).map
            (fun i => (h.Offset + 4 + i * 12, 12)) ∧
    scanDirectory f h.Offset (le32 (f.slice h.Offset 4))
      = ⟨(List.range' 0 (le32 (f.slice h.Offset 4))).map
            (fun i => (h.Offset + 4 + i * 12, 12)),
         List.replicate (le32 (f.slice h.Offset 4)) ⟨0, 0, 0⟩ ++
           ((List.range' 0 (le32 (f.slice h.Offset 4))).map (dirEntry f h.Offset)).filter
             (fun e => decide (e.CRC ≠ fileNameListCRC)),
         (((List.range' 0 (le32 (f.slice h.Offset 4))).map (dirEntry f h.Offset)).filter
             (fun e => decide (e.CRC = fileNameListCRC))).getLast?.getD ⟨0, 0, 0⟩,
         false⟩ ∧
    ∀ i, dirEntry f h.Offset i
      = ⟨f.byte (h.Offset + 4 + i * 12) + 256 * f.byte (h.Offset + 4 + i * 12 + 1)
            + 65536 * f.byte (h.Offset + 4 + i * 12 + 2)
            + 16777216 * f.byte (h.Offset + 4 + i * 12 + 3),
         f.byte (h.Offset + 4 + i * 12 + 4) + 256 * f.byte (h.Offset + 4 + i * 12 + 5)
            + 65536 * f.byte (h.Offset + 4 + i * 12 + 6)
            + 16777216 * f.byte (h.Offset + 4 + i * 12 + 7),
         f.byte (h.Offset + 4 + i * 12 + 8) + 256 * f.byte (h.Offset + 4 + i * 12 + 9)
            + 65536 * f.byte (h.Offset + 4 + i * 12 + 10)
            + 16777216 * f.byte (h.Offset + 4 + i * 12 + 11)⟩ := by
  have h4 : h.Offset + 4 ≤ f.size := by omega
  refine ⟨⟨readAt_of_le f _ 4 h4, le32_slice f h.Offset⟩, ?_,
    scanDirectory_readable f _ _ hdir, fun i => dirEntry_bytes f h.Offset i⟩
  have hrun : loadS3d inflate f =
      decodeOpened (openFileNames inflate f h) := by
    unfold loadS3d
    simp only [hh]
  rw [hrun, openFileNames_readable inflate f h hdir]
  have hp := openDataBlock_reads_prefix inflate f
    ((h.Offset, 4) ::
      (List.range' 0 (le32 (f.slice h.Offset 4))).map
        (fun j => (h.Offset + 4 + j * 12, 12)))
    (((directory f h.Offset (le32 (f.slice h.Offset 4))).filter
      (fun e => decide (e.CRC = fileNameListCRC))).getLast?.getD ⟨0, 0, 0⟩)
  simpa using hp

/-- C15 on `farDirectory`, whose directory is at offset 4294967280: the
count 2 is read there, the records are read at 4294967284 and at 4294967296
(beyond `2^32`), and the second one is decoded to the reserved checksum, the
payload offset 12 and the payload size 41. -/
theorem directory_decoding_witness :
    readHeader farDirectory = .ok ⟨4294967280, magicPFS, 131072⟩ ∧
    le32 (farDirectory.slice 4294967280 4) = 2 ∧
    (loadS3d storedInflate farDirectory).reads.take 3
      = [(4294967280, 4), (4294967284, 12), (4294967296, 12)] ∧
    dirEntry farDirectory 4294967280 1 = ⟨fileNameListCRC, 12, 41⟩ :=
  ⟨rfl, by decide,
    (directory_decoding storedInflate farDirectory ⟨4294967280, magicPFS, 131072⟩ rfl
      (by decide)).2.1,
    by decide⟩

/-- A file with an accepted header that ends before the last declared
directory record is not loaded. -/
theorem loadS3d_truncated_status (inflate : List Nat → ZStream) (f : File) (h : PFSHeader)
    (hh : readHeader f = .ok h)
    (hlt : f.size < h.Offset + 4 + 12 * le32 (f.slice h.Offset 4)) :
    (loadS3d inflate f).status ≠ .ok := by
  unfold loadS3d
  simp only [hh, openFileNames]
  by_cases h4 : h.Offset + 4 ≤ f.size
  · rw [readAt_of_le f _ 4 h4]
    simp [scanDirectory_failed f _ _ hlt h4, decodeOpened]
  · have h5 : f.size < h.Offset + 4 := by omega
    rw [readAt_of_lt f _ 4 (by decide) h5]
    simp [decodeOpened]

/-- The bytes of the format constant in a file whose header is accepted. -/
theorem readHeader_ok_version (f : File) (h : PFSHeader) (hh : readHeader f = .ok h) :
    f.byte 8 = 0 ∧ f.byte 9 = 0 ∧ f.byte 10 = 2 ∧ (11 < f.size → f.byte 11 = 0) := by
  obtain ⟨hsz, -, h8, h9⟩ := readHeader_ok f h hh
  obtain ⟨hb, hrb, hdec, -, hu⟩ := readHeader_ok_iff f h hh
  unfold readHeaderBytes at hrb
  have h0 : f.size ≠ 0 := by omega
  simp only [h0, if_false, range_twelve, List.map_cons, List.map_nil,
    Option.some.injEq] at hrb
  subst hrb
  subst hdec
  simp only [decodePFSHeader, le32, List.drop, List.getD_cons_zero,
    List.getD_cons_succ] at hu
  have s8 : 8 < f.size := by omega
  have s9 : 9 < f.size := by omega
  have s10 : 10 < f.size := by omega
  simp only [s8, s9, s10, if_true, h8, h9] at hu
  have b10 := f.byte_lt 10
  have b11 := f.byte_lt 11
  have m11 := Nat.mod_lt (if 11 < f.size then f.byte 11 else 0) (show 0 < 256 by decide)
  refine ⟨h8, h9, by omega, ?_⟩
  intro s11
  simp only [s11, if_true] at hu m11
  omega

/-- In a file whose header is accepted, no run of bytes at offset 8 is taken
by `zlib.NewReader`: it is too short, or starts with the zero bytes of the
format constant. -/
theorem zlibNewReader_format_constant (inflate : List Nat → ZStream) (f : File)
    (h : PFSHeader) (hh : readHeader f = .ok h) (n : Nat) :
    zlibNewReader inflate (f.slice 8 n)
      = .error (if n < 2 then .unexpectedEOF else .header) := by
  obtain ⟨h8, -, -, -⟩ := readHeader_ok_version f h hh
  rcases Nat.lt_or_ge n 2 with h2 | h2
  · rcases Nat.eq_zero_or_pos n with h0 | h0
    · simp [h0, File.slice, zlibNewReader]
    · have h1 : n = 0 + 1 := by omega
      rw [h1, slice_succ]
      simp [File.slice, zlibNewReader]
  · obtain ⟨k, hk⟩ : ∃ k, n = k + 1 + 1 := ⟨n - 2, by omega⟩
    have h2' : ¬ n < 2 := by omega
    simp only [h2', if_false]
    rw [hk, slice_succ, slice_succ]
    simp [zlibNewReader, h8]

/-- C19. A file with an accepted header `h` whose directory has no entry
with the reserved checksum, the empty directory included, is never loaded
with success. When the directory lies within the file, the zero-valued
filename entry makes `loadS3d` read the block header at offset 0, so that
the compressed length is the directory offset; the compressed bytes are read
at offset 8, where the bytes `00 00 02 00` of the format constant lie, and
whatever their number `zlib.NewReader` rejects them: the run ends with the
error of the read of the compressed bytes when they do not lie within the
file, and with the panic of line 170 otherwise. -/
theorem loadS3d_without_reserved_entry (inflate : List Nat → ZStream) (f : File)
    (h : PFSHeader) (hh : readHeader f = .ok h)
    (hnone : ∀ i, i < le32 (f.slice h.Offset 4) →
      (dirEntry f h.Offset i).CRC ≠ fileNameListCRC) :
    (loadS3d inflate f).status ≠ .ok ∧
    (h.Offset + 4 + 12 * le32 (f.slice h.Offset 4) ≤ f.size →
      (readAt f 0 8 = some (f.slice 0 8) ∧
        (decodeDataBlock (f.slice 0 8)).CompressedLength = h.Offset) ∧
      (f.byte 8 = 0 ∧ f.byte 9 = 0 ∧ f.byte 10 = 2 ∧ (11 < f.size → f.byte 11 = 0)) ∧
      zlibNewReader inflate (f.slice 8 h.Offset)
        = .error (if h.Offset < 2 then .unexpectedEOF else .header) ∧
      loadS3d inflate f =
        ⟨(h.Offset, 4) ::
            (List.range' 0 (le32 (f.slice h.Offset 4))).map
              (fun j => (h.Offset + 4 + j * 12, 12)) ++ [(0, 8)] ++ [(8, h.Offset)],
          none, [],
          if f.size < 8 + h.Offset then .error .fileNameBytesRead
          else .panic (if h.Offset < 2 then .unexpectedEOF else .header)⟩) := by
  have hmem : ∀ e ∈ directory f h.Offset (le32 (f.slice h.Offset 4)),
      e.CRC ≠ fileNameListCRC := by
    intro e he
    simp only [directory, List.mem_map, List.mem_range'_1] at he
    obtain ⟨i, hi, rfl⟩ := he
    exact hnone i (by omega)
  have hfull : h.Offset + 4 + 12 * le32 (f.slice h.Offset 4) ≤ f.size →
      loadS3d inflate f =
        ⟨(h.Offset, 4) ::
            (List.range' 0 (le32 (f.slice h.Offset 4))).map
              (fun j => (h.Offset + 4 + j * 12, 12)) ++ [(0, 8)] ++ [(8, h.Offset)],
          none, [],
          if f.size < 8 + h.Offset then .error .fileNameBytesRead
          else .panic (if h.Offset < 2 then .unexpectedEOF else .header)⟩ :=
    fun hdir => loadS3d_no_reserved inflate f h hh hdir hmem
  constructor
  · by_cases hdir : h.Offset + 4 + 12 * le32 (f.slice h.Offset 4) ≤ f.size
    · rw [hfull hdir]
      by_cases hlt : f.size < 8 + h.Offset
      · simp [hlt]
      · simp [hlt]
    · exact loadS3d_truncated_status inflate f h hh (by omega)
  · intro hdir
    obtain ⟨hsz, hoff, -, -⟩ := readHeader_ok f h hh
    refine ⟨⟨readAt_of_le f 0 8 (by omega), ?_⟩, readHeader_ok_version f h hh,
      zlibNewReader_format_constant inflate f h hh h.Offset, hfull hdir⟩
    rw [hoff]
    simp [decodeDataBlock, File.slice, range_eight, range_four, le32]

/-- C19 on `emptyDirectory`, whose directory has no entry: the block header
is read at offset 0, the twelve compressed bytes asked for at offset 8 do not
lie within the 16 bytes of the file, and the error of that read is
returned. -/
theorem loadS3d_without_reserved_entry_witness :
    readHeader (File.ofList emptyDirectory) = .ok ⟨12, magicPFS, 131072⟩ ∧
    le32 ((File.ofList emptyDirectory).slice 12 4) = 0 ∧
    (loadS3d storedInflate (File.ofList emptyDirectory)).status ≠ .ok ∧
    loadS3d storedInflate (File.ofList emptyDirectory)
      = ⟨[(12, 4), (0, 8), (8, 12)], none, [], .error .fileNameBytesRead⟩ :=
  ⟨rfl, by decide,
    (loadS3d_without_reserved_entry storedInflate (File.ofList emptyDirectory)
      ⟨12, magicPFS, 131072⟩ rfl (by decide)).1,
    ((loadS3d_without_reserved_entry storedInflate (File.ofList emptyDirectory)
      ⟨12, magicPFS, 131072⟩ rfl (by decide)).2 (by decide)).2.2.2⟩

/-- C17, on the code: after the scan of the directory of `twoNames` (three
entries, the second one reserved), `fileHeaders` holds five entries: the
three zero-valued entries of `make([]FileHeader, directoryHeader.Count)`,
which were not read from the file, and behind them the two entries without
the reserved checksum. -/
theorem scanDirectory_twoNames :
    directory (File.ofList twoNames) 53 3
      = [⟨1, 100, 5⟩, ⟨fileNameListCRC, 12, 41⟩, ⟨2, 200, 6⟩] ∧
    scanDirectory (File.ofList twoNames) 53 3
      = ⟨[(57, 12), (69, 12), (81, 12)],
          [⟨0, 0, 0⟩, ⟨0, 0, 0⟩, ⟨0, 0, 0⟩, ⟨1, 100, 5⟩, ⟨2, 200, 6⟩],
          ⟨fileNameListCRC, 12, 41⟩, false⟩ := by
  decide

/-- C18, on the code: in `wrappedBlock` the reserved entry has the payload
offset `p = 2^32 - 8`. The block header is read at `p`, but the 33 compressed
bytes are read at offset 0, the `uint32` sum `p + 8`, and not at `2^32`: the
decompressor is handed the start of the file, and `loadS3d` returns the error
of the read of the count. The bytes at `[p + 8, p + 8 + 33)` are the filename
table of `twoNames`. -/
theorem loadS3d_wrappedBlock :
    readHeader wrappedBlock = .ok ⟨376, magicPFS, 131072⟩ ∧
    directory wrappedBlock 376 1 = [⟨fileNameListCRC, 4294967288, 41⟩] ∧
    loadS3d storedInflate wrappedBlock
      = ⟨[(376, 4), (380, 12), (4294967288, 8), (0, 33)], none, [],
          .error .fileNameCountRead⟩ ∧
    zlibNewReader storedInflate (wrappedBlock.slice (4294967288 + 8) 33)
      = .ok ⟨[], encodeTable [[97, 46, 116, 120, 116], [98, 46, 100, 97, 116]], .eof⟩ :=
  ⟨rfl, by decide, by decide, rfl⟩

/-! ## What a run depends on -/

theorem slice_congr (f g : File) (off n : Nat)
    (h : ∀ k, k < n → g.byte (off + k) = f.byte (off + k)) :
    g.slice off n = f.slice off n := by
  unfold File.slice
  apply List.map_congr_left
  intro k hk
  exact h k (List.mem_range.mp hk)

theorem readAt_congr (f g : File) (off n : Nat) (hsize : g.size = f.size)
    (h : off + n ≤ f.size → g.slice off n = f.slice off n) :
    readAt g off n = readAt f off n := by
  unfold readAt
  by_cases hn : n = 0
  · simp [hn]
  · by_cases hle : off + n ≤ f.size
    · simp [hn, hsize, hle, h hle]
    · simp [hn, hsize, hle]

theorem readHeaderBytes_congr (f g : File) (hsize : g.size = f.size)
    (h : ∀ i, i < 12 → i < f.size → g.byte i = f.byte i) :
    readHeaderBytes g = readHeaderBytes f := by
  unfold readHeaderBytes
  rw [hsize]
  by_cases h0 : f.size = 0
  · simp [h0]
  · simp only [h0, if_false]
    congr 1
    apply List.map_congr_left
    intro i hi
    by_cases hlt : i < f.size
    · simp [hlt, h i (List.mem_range.mp hi) hlt]
    · simp [hlt]

theorem readHeader_congr (f g : File) (hsize : g.size = f.size)
    (h : ∀ i, i < 12 → i < f.size → g.byte i = f.byte i) :
    readHeader g = readHeader f := by
  unfold readHeader
  rw [readHeaderBytes_congr f g hsize h]

/-- The scans of two files of the same size that agree on the checksum of
every record, and on the payload offset of the records with the reserved
checksum, issue the same reads, fail together, and end with the same offset
in `fileNameHeader`. -/
theorem scanLoop_congr (f g : File) (off : Nat) (hsize : g.size = f.size) :
    ∀ (todo i : Nat) (fhs fhs' : List FileHeader) (fnh fnh' : FileHeader),
      fnh'.Offset = fnh.Offset →
      (∀ j, i ≤ j → j < i + todo → off + 4 + j * 12 + 12 ≤ f.size →
        (dirEntry g off j).CRC = (dirEntry f off j).CRC ∧
        ((dirEntry f off j).CRC = fileNameListCRC →
          (dirEntry g off j).Offset = (dirEntry f off j).Offset)) →
      (scanLoop g off todo i fhs' fnh').reads = (scanLoop f off todo i fhs fnh).reads ∧
      (scanLoop g off todo i fhs' fnh').failed = (scanLoop f off todo i fhs fnh).failed ∧
      (scanLoop g off todo i fhs' fnh').fileNameHeader.Offset
        = (scanLoop f off todo i fhs fnh).fileNameHeader.Offset := by
  intro todo
  induction todo with
  | zero => intro i fhs fhs' fnh fnh' ho _; simp [scanLoop, ho]
  | succ n ih =>
    intro i fhs fhs' fnh fnh' ho hrec
    by_cases hr : off + 4 + i * 12 + 12 ≤ f.size
    · have hr' : off + 4 + i * 12 + 12 ≤ g.size := by omega
      obtain ⟨hcrc, hoff⟩ := hrec i (Nat.le_refl _) (by omega) hr
      have hrec' : ∀ j, i + 1 ≤ j → j < i + 1 + n → off + 4 + j * 12 + 12 ≤ f.size →
          (dirEntry g off j).CRC = (dirEntry f off j).CRC ∧
          ((dirEntry f off j).CRC = fileNameListCRC →
            (dirEntry g off j).Offset = (dirEntry f off j).Offset) :=
        fun j h1 h2 h3 => hrec j (by omega) (by omega) h3
      have hdf : decodeFileHeader (f.slice (off + 4 + i * 12) 12) = dirEntry f off i := rfl
      have hdg : decodeFileHeader (g.slice (off + 4 + i * 12) 12) = dirEntry g off i := rfl
      simp only [scanLoop, readAt_of_le f _ 12 hr, readAt_of_le g _ 12 hr', hdf, hdg, hcrc]
      by_cases hc : (dirEntry f off i).CRC = fileNameListCRC
      · simp only [hc, if_true]
        obtain ⟨h1, h2, h3⟩ := ih (i + 1) fhs fhs' (dirEntry f off i) (dirEntry g off i)
          (hoff hc) hrec'
        exact ⟨by rw [h1], h2, h3⟩
      · simp only [hc, if_false]
        obtain ⟨h1, h2, h3⟩ := ih (i + 1) (fhs ++ [dirEntry f off i])
          (fhs' ++ [dirEntry g off i]) fnh fnh' ho hrec'
        exact ⟨by rw [h1], h2, h3⟩
    · have hr2 : f.size < off + 4 + i * 12 + 12 := by omega
      have hr2' : g.size < off + 4 + i * 12 + 12 := by omega
      simp [scanLoop, readAt_of_lt f _ 12 (by decide) hr2,
        readAt_of_lt g _ 12 (by decide) hr2', ho]

theorem le32_slice_eight (f : File) (p : Nat) : le32 (f.slice p 8) = le32 (f.slice p 4) := by
  simp [File.slice, range_eight, range_four, le32]

/-- The block of the filename table is opened alike in two files of the
same size that agree on the compressed length and on the compressed
bytes. -/
theorem openDataBlock_congr (inflate : List Nat → ZStream) (f g : File)
    (reads : List (Nat × Nat)) (fnh fnh' : FileHeader) (hsize : g.size = f.size)
    (ho : fnh'.Offset = fnh.Offset)
    (hlen : fnh.Offset + 8 ≤ f.size →
      le32 (g.slice fnh.Offset 4) = le32 (f.slice fnh.Offset 4))
    (hcomp : fnh.Offset + 8 ≤ f.size →
      (fnh.Offset + 8) % 4294967296 + le32 (f.slice fnh.Offset 4) ≤ f.size →
      g.slice ((fnh.Offset + 8) % 4294967296) (le32 (f.slice fnh.Offset 4))
        = f.slice ((fnh.Offset + 8) % 4294967296) (le32 (f.slice fnh.Offset 4))) :
    openDataBlock inflate g reads fnh' = openDataBlock inflate f reads fnh := by
  unfold openDataBlock
  rw [ho]
  by_cases h8 : fnh.Offset + 8 ≤ f.size
  · have h8' : fnh.Offset + 8 ≤ g.size := by omega
    have hl := hlen h8
    simp only [readAt_of_le f _ 8 h8, readAt_of_le g _ 8 h8', decodeDataBlock,
      le32_slice_eight, hl]
    rw [readAt_congr f g _ _ hsize (hcomp h8)]
  · have h8f : f.size < fnh.Offset + 8 := by omega
    have h8g : g.size < fnh.Offset + 8 := by omega
    simp [readAt_of_lt f _ 8 (by decide) h8f, readAt_of_lt g _ 8 (by decide) h8g]

/-- A run of `loadS3d` on a file with an accepted header depends on the
size of the file, on its first 12 bytes, on the entry count, on the checksum
of every directory record, on the payload offset of the records with the
reserved checksum, on the compressed length of the block of the filename
table and on its compressed bytes: two files that agree on these have the
same run. -/
theorem loadS3d_congr (inflate : List Nat → ZStream) (f g : File) (h : PFSHeader)
    (hh : readHeader f = .ok h) (hsize : g.size = f.size)
    (hhead : ∀ i, i < 12 → i < f.size → g.byte i = f.byte i)
    (hcount : h.Offset + 4 ≤ f.size → g.slice h.Offset 4 = f.slice h.Offset 4)
    (hrec : ∀ j, j < le32 (f.slice h.Offset 4) → h.Offset + 4 + j * 12 + 12 ≤ f.size →
      (dirEntry g h.Offset j).CRC = (dirEntry f h.Offset j).CRC ∧
      ((dirEntry f h.Offset j).CRC = fileNameListCRC →
        (dirEntry g h.Offset j).Offset = (dirEntry f h.Offset j).Offset))
    (hlen : (scanDirectory f h.Offset (le32 (f.slice h.Offset 4))).fileNameHeader.Offset + 8
        ≤ f.size →
      le32 (g.slice
          (scanDirectory f h.Offset (le32 (f.slice h.Offset 4))).fileNameHeader.Offset 4)
        = le32 (f.slice
          (scanDirectory f h.Offset (le32 (f.slice h.Offset 4))).fileNameHeader.Offset 4))
    (hcomp : (scanDirectory f h.Offset (le32 (f.slice h.Offset 4))).fileNameHeader.Offset + 8
        ≤ f.size →
      ((scanDirectory f h.Offset (le32 (f.slice h.Offset 4))).fileNameHeader.Offset + 8)
          % 4294967296
        + le32 (f.slice
            (scanDirectory f h.Offset (le32 (f.slice h.Offset 4))).fileNameHeader.Offset 4)
        ≤ f.size →
      g.slice
          (((scanDirectory f h.Offset (le32 (f.slice h.Offset 4))).fileNameHeader.Offset + 8)
            % 4294967296)
          (le32 (f.slice
            (scanDirectory f h.Offset (le32 (f.slice h.Offset 4))).fileNameHeader.Offset 4))
        = f.slice
          (((scanDirectory f h.Offset (le32 (f.slice h.Offset 4))).fileNameHeader.Offset + 8)
            % 4294967296)
          (le32 (f.slice
            (scanDirectory f h.Offset (le32 (f.slice h.Offset 4))).fileNameHeader.Offset
            4))) :
    loadS3d inflate g = loadS3d inflate f := by
  have hg : readHeader g = .ok h := by rw [readHeader_congr f g hsize hhead, hh]
  unfold loadS3d
  simp only [hh, hg]
  congr 1
  unfold openFileNames
  by_cases h4 : h.Offset + 4 ≤ f.size
  · have h4' : h.Offset + 4 ≤ g.size := by omega
    simp only [readAt_of_le f _ 4 h4, readAt_of_le g _ 4 h4', hcount h4]
    obtain ⟨h1, h2, h3⟩ := scanLoop_congr f g h.Offset hsize (le32 (f.slice h.Offset 4)) 0
      (List.replicate (le32 (f.slice h.Offset 4)) ⟨0, 0, 0⟩)
      (List.replicate (le32 (f.slice h.Offset 4)) ⟨0, 0, 0⟩) ⟨0, 0, 0⟩ ⟨0, 0, 0⟩ rfl
      (fun j _ hj hr => hrec j (by omega) hr)
    have e1 : (scanDirectory g h.Offset (le32 (f.slice h.Offset 4))).reads
        = (scanDirectory f h.Offset (le32 (f.slice h.Offset 4))).reads := h1
    have e2 : (scanDirectory g h.Offset (le32 (f.slice h.Offset 4))).failed
        = (scanDirectory f h.Offset (le32 (f.slice h.Offset 4))).failed := h2
    have e3 : (scanDirectory g h.Offset (le32 (f.slice h.Offset 4))).fileNameHeader.Offset
        = (scanDirectory f h.Offset (le32 (f.slice h.Offset 4))).fileNameHeader.Offset := h3
    rw [e1, e2]
    by_cases hf : (scanDirectory f h.Offset (le32 (f.slice h.Offset 4))).failed = true
    · simp [hf]
    · simp only [hf]
      exact openDataBlock_congr inflate f g _ _ _ hsize e3 hlen hcomp
  · have h5 : f.size < h.Offset + 4 := by omega
    have h5' : g.size < h.Offset + 4 := by omega
    simp [readAt_of_lt f _ 4 (by decide) h5, readAt_of_lt g _ 4 (by decide) h5']

theorem dirEntry_CRC_congr (f g : File) (off j : Nat)
    (h : ∀ k, k < 4 → g.byte (off + 4 + j * 12 + k) = f.byte (off + 4 + j * 12 + k)) :
    (dirEntry g off j).CRC = (dirEntry f off j).CRC := by
  have h0 := h 0 (by decide)
  have h1 := h 1 (by decide)
  have h2 := h 2 (by decide)
  have h3 := h 3 (by decide)
  simp only [Nat.add_zero] at h0
  simp only [dirEntry_bytes, h0, h1, h2, h3]

theorem dirEntry_Offset_congr (f g : File) (off j : Nat)
    (h : ∀ k, 4 ≤ k → k < 8 → g.byte (off + 4 + j * 12 + k) = f.byte (off + 4 + j * 12 + k)) :
    (dirEntry g off j).Offset = (dirEntry f off j).Offset := by
  have h4 := h 4 (by decide) (by decide)
  have h5 := h 5 (by decide) (by decide)
  have h6 := h 6 (by decide) (by decide)
  have h7 := h 7 (by decide) (by decide)
  simp only [dirEntry_bytes, h4, h5, h6, h7]

/-- C12, refuted as stated: `overlapped` and the file that differs from it
in the one byte at offset 37, a byte of the payload size of the second
directory record, whose checksum is 5. The first is loaded with the name `a`;
on the second `loadS3d` returns the error of the read of the count, because
that byte is also one of the compressed bytes of the filename table. -/
theorem loadS3d_payload_fields_counterexample :
    directory (File.ofList overlapped) 12 2
      = [⟨fileNameListCRC, 24, 20⟩, ⟨5, 151060856, 33551872⟩] ∧
    directory (File.ofList (patch overlapped 37 [247])) 12 2
      = [⟨fileNameListCRC, 24, 20⟩, ⟨5, 151060856, 33552128⟩] ∧
    (∀ i, i < 52 → i ≠ 37 → (patch overlapped 37 [247]).getD i 0 = overlapped.getD i 0) ∧
    loadS3d storedInflate (File.ofList overlapped)
      = ⟨[(12, 4), (16, 12), (28, 12), (24, 8), (32, 20)], some 1, [[97]], .ok⟩ ∧
    loadS3d storedInflate (File.ofList (patch overlapped 37 [247]))
      = ⟨[(12, 4), (16, 12), (28, 12), (24, 8), (32, 20)], none, [],
          .error .fileNameCountRead⟩ := by
  decide

/-- C12, amended. Let `f` have an accepted header `h`, and let `g` have the
size of `f` and differ from it only in bytes of the payload offset and
payload size of directory records whose checksum is not the reserved one,
none of these bytes being also one of the first 12 bytes of the file or one
of the bytes of the block of the filename table that a run looks at (its
compressed length and its compressed bytes). Then `loadS3d` has the same run
on `g` as on `f`: the same reads, the same names, the same end. -/
theorem loadS3d_payload_fields (inflate : List Nat → ZStream) (f g : File) (h : PFSHeader)
    (hh : readHeader f = .ok h) (hsize : g.size = f.size)
    (hdiff : ∀ i, i < f.size → g.byte i ≠ f.byte i →
      (∃ j, j < le32 (f.slice h.Offset 4) ∧ (dirEntry f h.Offset j).CRC ≠ fileNameListCRC ∧
        h.Offset + 4 + j * 12 + 4 ≤ i ∧ i < h.Offset + 4 + j * 12 + 12) ∧
      12 ≤ i ∧
      ¬ inBlock f
        (scanDirectory f h.Offset (le32 (f.slice h.Offset 4))).fileNameHeader.Offset i) :
    loadS3d inflate g = loadS3d inflate f := by
  apply loadS3d_congr inflate f g h hh hsize
  · intro i hi hlt
    by_contra hne
    have := (hdiff i hlt hne).2.1
    omega
  · intro h4
    apply slice_congr
    intro k hk
    by_contra hne
    obtain ⟨⟨j, -, -, hj, -⟩, -, -⟩ := hdiff (h.Offset + k) (by omega) hne
    omega
  · intro j hj hr
    constructor
    · apply dirEntry_CRC_congr
      intro k hk
      by_contra hne
      obtain ⟨⟨j', -, -, h1, h2⟩, -, -⟩ := hdiff (h.Offset + 4 + j * 12 + k) (by omega) hne
      omega
    · intro hres
      apply dirEntry_Offset_congr
      intro k hk4 hk8
      by_contra hne
      obtain ⟨⟨j', -, hnr, h1, h2⟩, -, -⟩ :=
        hdiff (h.Offset + 4 + j * 12 + k) (by omega) hne
      have hjj : j' = j := by omega
      rw [hjj] at hnr
      exact hnr hres
  · intro h8
    congr 1
    apply slice_congr
    intro k hk
    by_contra hne
    have hb := (hdiff _ (by omega) hne).2.2
    exact hb (Or.inl ⟨by omega, by omega⟩)
  · intro h8 hq
    apply slice_congr
    intro k hk
    by_contra hne
    have hb := (hdiff _ (by omega) hne).2.2
    exact hb (Or.inr ⟨by omega, by omega⟩)

/-- The amended C12 on `twoNames` and `twoNamesOtherPayloads`: the payload
ranges of the records without the reserved checksum lie beyond the 93 bytes
of the file in both, and `loadS3d` succeeds on both with the same run. -/
theorem loadS3d_payload_fields_witness :
    directory (File.ofList twoNamesOtherPayloads) 53 3
      = [⟨1, 4000000000, 77⟩, ⟨fileNameListCRC, 12, 41⟩, ⟨2, 0, 4294967295⟩] ∧
    (loadS3d storedInflate (File.ofList twoNames)).status = .ok ∧
    loadS3d storedInflate (File.ofList twoNamesOtherPayloads)
      = loadS3d storedInflate (File.ofList twoNames) :=
  ⟨by decide, by decide,
    loadS3d_payload_fields storedInflate (File.ofList twoNames)
      (File.ofList twoNamesOtherPayloads) ⟨53, magicPFS, 131072⟩ rfl (by decide)
      (by decide)⟩

/-- C13, refuted as stated: `overlapped` and the file that differs from it
in the four bytes at offset 28, the inflated length of the block header of
its filename table, set to 1633159881. The first is loaded with the name
`a`; on the second `loadS3d` returns the error of the read of a block
header, because these bytes are also the checksum of the second directory
record, which becomes the filename entry. -/
theorem loadS3d_inflated_length_counterexample :
    (scanDirectory (File.ofList overlapped) 12 2).fileNameHeader
      = ⟨fileNameListCRC, 24, 20⟩ ∧
    decodeDataBlock ((File.ofList overlapped).slice 24 8) = ⟨20, 5⟩ ∧
    (∀ i, i < 52 → ¬ (28 ≤ i ∧ i < 32) →
      (patch overlapped 28 [201, 10, 88, 97]).getD i 0 = overlapped.getD i 0) ∧
    loadS3d storedInflate (File.ofList overlapped)
      = ⟨[(12, 4), (16, 12), (28, 12), (24, 8), (32, 20)], some 1, [[97]], .ok⟩ ∧
    loadS3d storedInflate (File.ofList (patch overlapped 28 [201, 10, 88, 97]))
      = ⟨[(12, 4), (16, 12), (28, 12), (151060856, 8)], none, [],
          .error .dataBlockRead⟩ := by
  decide

/-- C13, amended. Let `f` have an accepted header `h`, let `p` be the
offset that the scan of the directory leaves in `fileNameHeader`, and let
`g` have the size of `f` and differ from it only in the four bytes at
`p + 4`, the inflated length of the block header, none of these bytes being
also one of the first 12 bytes of the file, a byte of the directory, or one
of the compressed bytes of the block. Then `loadS3d` has the same run on `g`
as on `f`. -/
theorem loadS3d_inflated_length (inflate : List Nat → ZStream) (f g : File) (h : PFSHeader)
    (hh : readHeader f = .ok h) (hsize : g.size = f.size)
    (hdiff : ∀ i, i < f.size → g.byte i ≠ f.byte i →
      ((scanDirectory f h.Offset (le32 (f.slice h.Offset 4))).fileNameHeader.Offset + 4 ≤ i ∧
        i < (scanDirectory f h.Offset (le32 (f.slice h.Offset 4))).fileNameHeader.Offset
          + 8) ∧
      12 ≤ i ∧
      ¬ (h.Offset ≤ i ∧ i < h.Offset + 4 + 12 * le32 (f.slice h.Offset 4)) ∧
      ¬ (((scanDirectory f h.Offset (le32 (f.slice h.Offset 4))).fileNameHeader.Offset + 8)
            % 4294967296 ≤ i ∧
          i < ((scanDirectory f h.Offset (le32 (f.slice h.Offset 4))).fileNameHeader.Offset
                + 8) % 4294967296
              + le32 (f.slice
                  (scanDirectory f h.Offset (le32 (f.slice h.Offset 4))).fileNameHeader.Offset
                  4))) :
    loadS3d inflate g = loadS3d inflate f := by
  apply loadS3d_congr inflate f g h hh hsize
  · intro i hi hlt
    by_contra hne
    have := (hdiff i hlt hne).2.1
    omega
  · intro h4
    apply slice_congr
    intro k hk
    by_contra hne
    have hd := (hdiff (h.Offset + k) (by omega) hne).2.2.1
    exact hd ⟨by omega, by omega⟩
  · intro j hj hr
    constructor
    · apply dirEntry_CRC_congr
      intro k hk
      by_contra hne
      have hd := (hdiff (h.Offset + 4 + j * 12 + k) (by omega) hne).2.2.1
      exact hd ⟨by omega, by omega⟩
    · intro _
      apply dirEntry_Offset_congr
      intro k hk4 hk8
      by_contra hne
      have hd := (hdiff (h.Offset + 4 + j * 12 + k) (by omega) hne).2.2.1
      exact hd ⟨by omega, by omega⟩
  · intro h8
    congr 1
    apply slice_congr
    intro k hk
    by_contra hne
    have hb := (hdiff _ (by omega) hne).1
    omega
  · intro h8 hq
    apply slice_congr
    intro k hk
    by_contra hne
    have hb := (hdiff _ (by omega) hne).2.2.2
    exact hb ⟨by omega, by omega⟩

/-- The amended C13 on `twoNames`, whose table inflates to 22 bytes, and on
the same archive with the inflated length 7 in its block header: `loadS3d`
succeeds on both with the same run. -/
theorem loadS3d_inflated_length_witness :
    decodeDataBlock ((File.ofList twoNames).slice 12 8) = ⟨33, 22⟩ ∧
    decodeDataBlock ((File.ofList (patch twoNames 16 [7, 0, 0, 0])).slice 12 8) = ⟨33, 7⟩ ∧
    (loadS3d storedInflate (File.ofList twoNames)).status = .ok ∧
    loadS3d storedInflate (File.ofList (patch twoNames 16 [7, 0, 0, 0]))
      = loadS3d storedInflate (File.ofList twoNames) :=
  ⟨by decide, by decide, by decide,
    loadS3d_inflated_length storedInflate (File.ofList twoNames)
      (File.ofList (patch twoNames 16 [7, 0, 0, 0])) ⟨53, magicPFS, 131072⟩ rfl (by decide)
      (by decide)⟩

/-- C20, refuted as stated: `overlapped` and the file that differs from it
in the one byte at offset 24, a byte of the payload size of the directory
record with the reserved checksum, set to 120. The first is loaded with the
name `a`; on the second `loadS3d` returns the error of the read of the
compressed bytes, because that payload size is also the compressed length of
the block. -/
theorem loadS3d_reserved_size_counterexample :
    directory (File.ofList overlapped) 12 2
      = [⟨fileNameListCRC, 24, 20⟩, ⟨5, 151060856, 33551872⟩] ∧
    directory (File.ofList (patch overlapped 24 [120])) 12 2
      = [⟨fileNameListCRC, 24, 120⟩, ⟨5, 151060856, 33551872⟩] ∧
    (∀ i, i < 52 → i ≠ 24 → (patch overlapped 24 [120]).getD i 0 = overlapped.getD i 0) ∧
    loadS3d storedInflate (File.ofList overlapped)
      = ⟨[(12, 4), (16, 12), (28, 12), (24, 8), (32, 20)], some 1, [[97]], .ok⟩ ∧
    loadS3d storedInflate (File.ofList (patch overlapped 24 [120]))
      = ⟨[(12, 4), (16, 12), (28, 12), (24, 8), (32, 120)], none, [],
          .error .fileNameBytesRead⟩ := by
  decide

/-- C20, amended. Let `f` have an accepted header `h`, and let `g` have the
size of `f` and differ from it only in bytes of the payload size of
directory records with the reserved checksum, none of these bytes being also
one of the first 12 bytes of the file or one of the bytes of the block of
the filename table that a run looks at (its compressed length and its
compressed bytes). Then `loadS3d` has the same run on `g` as on `f`; the
number of compressed bytes it reads is the compressed length of the block
whatever the payload size. -/
theorem loadS3d_reserved_size (inflate : List Nat → ZStream) (f g : File) (h : PFSHeader)
    (hh : readHeader f = .ok h) (hsize : g.size = f.size)
    (hdiff : ∀ i, i < f.size → g.byte i ≠ f.byte i →
      (∃ j, j < le32 (f.slice h.Offset 4) ∧ (dirEntry f h.Offset j).CRC = fileNameListCRC ∧
        h.Offset + 4 + j * 12 + 8 ≤ i ∧ i < h.Offset + 4 + j * 12 + 12) ∧
      12 ≤ i ∧
      ¬ inBlock f
        (scanDirectory f h.Offset (le32 (f.slice h.Offset 4))).fileNameHeader.Offset i) :
    loadS3d inflate g = loadS3d inflate f := by
  apply loadS3d_congr inflate f g h hh hsize
  · intro i hi hlt
    by_contra hne
    have := (hdiff i hlt hne).2.1
    omega
  · intro h4
    apply slice_congr
    intro k hk
    by_contra hne
    obtain ⟨⟨j, -, -, hj, -⟩, -, -⟩ := hdiff (h.Offset + k) (by omega) hne
    omega
  · intro j hj hr
    constructor
    · apply dirEntry_CRC_congr
      intro k hk
      by_contra hne
      obtain ⟨⟨j', -, -, h1, h2⟩, -, -⟩ := hdiff (h.Offset + 4 + j * 12 + k) (by omega) hne
      omega
    · intro _
      apply dirEntry_Offset_congr
      intro k hk4 hk8
      by_contra hne
      obtain ⟨⟨j', -, -, h1, h2⟩, -, -⟩ := hdiff (h.Offset + 4 + j * 12 + k) (by omega) hne
      omega
  · intro h8
    congr 1
    apply slice_congr
    intro k hk
    by_contra hne
    have hb := (hdiff _ (by omega) hne).2.2
    exact hb (Or.inl ⟨by omega, by omega⟩)
  · intro h8 hq
    apply slice_congr
    intro k hk
    by_contra hne
    have hb := (hdiff _ (by omega) hne).2.2
    exact hb (Or.inr ⟨by omega, by omega⟩)

/-- The amended C20 on `twoNames`, whose reserved entry declares the payload
size 41, and on the same archive with the payload size 1: on both `loadS3d`
reads the 33 compressed bytes of the block and succeeds with the same
run. -/
theorem loadS3d_reserved_size_witness :
    directory (File.ofList (patch twoNames 77 [1])) 53 3
      = [⟨1, 100, 5⟩, ⟨fileNameListCRC, 12, 1⟩, ⟨2, 200, 6⟩] ∧
    (loadS3d storedInflate (File.ofList twoNames)).reads
      = [(53, 4), (57, 12), (69, 12), (81, 12), (12, 8), (20, 33)] ∧
    loadS3d storedInflate (File.ofList (patch twoNames 77 [1]))
      = loadS3d storedInflate (File.ofList twoNames) :=
  ⟨by decide, by decide,
    loadS3d_reserved_size storedInflate (File.ofList twoNames)
      (File.ofList (patch twoNames 77 [1])) ⟨53, magicPFS, 131072⟩ rfl (by decide)
      (by decide)⟩


/-! ## Bytes after the last name -/

/-- A filename table that is delivered in one flush, followed in that flush
by at least one more byte, is decoded to its names, whatever they are and
however the stream ends after the flush. -/
theorem loadS3d_table_then_bytes (inflate : List Nat → ZStream) (f : File) (h : PFSHeader)
    (reads : List (Nat × Nat)) (ns : List (List Nat)) (extra : List Nat) (final : ZErr)
    (hh : readHeader f = .ok h)
    (hopen : openFileNames inflate f h = .inr (reads, ⟨[], encodeTable ns ++ extra, final⟩))
    (hcount : ns.length < 4294967296)
    (hnames : ∀ x ∈ ns, x.length < 4294967296) (hextra : extra ≠ []) :
    loadS3d inflate f = ⟨reads, some ns.length, ns, .ok⟩ := by
  have hrest : encodeNames ns ++ extra ≠ [] := by simp [hextra]
  have happ : encodeTable ns ++ extra = le32bytes ns.length ++ (encodeNames ns ++ extra) := by
    simp [encodeTable]
  have hrec := readNames_records final ns 0 extra [] hextra hnames
  simp only [Nat.add_zero, List.nil_append] at hrec
  unfold loadS3d
  simp only [hh, hopen, decodeOpened, happ]
  rw [decodeFileNames_table reads _ _ final hcount hrest, hrec]
  simp [readNames]

/-- The archive `twoNamesPadded`, whose inflated table has three zero bytes
after its last name, is decoded to the names `a.txt` and `b.dat`. -/
theorem loadS3d_twoNamesPadded :
    loadS3d storedInflate (File.ofList twoNamesPadded)
      = ⟨[(56, 4), (60, 12), (72, 12), (84, 12), (12, 8), (20, 36)], some 2,
          [[97, 46, 116, 120, 116], [98, 46, 100, 97, 116]], .ok⟩ :=
  loadS3d_table_then_bytes storedInflate (File.ofList twoNamesPadded)
    ⟨56, magicPFS, 131072⟩ [(56, 4), (60, 12), (72, 12), (84, 12), (12, 8), (20, 36)]
    [[97, 46, 116, 120, 116], [98, 46, 100, 97, 116]] [0, 0, 0] .eof
    rfl rfl (by decide) (by decide) (by decide)

/-- C11, on the code. The inflated table of `emptyLastName` is the table of
the names `a` and the empty name, and ends exactly at the end of the latter:
the read of its length returns the last four bytes of the stream together
with `io.EOF`, which line 192 takes as a failure, and `loadS3d` returns the
error of the read of a length. `loadS3d` succeeds on `truncatedName`, whose
inflated table is the count 1, the length 5 and the two bytes `ab`, with the
name `ab` followed by three zero bytes, because line 204 discards the byte
count of the read; `truncatedNameExtended` is that archive with `cdef`
appended to the inflated table, and `loadS3d` succeeds on it with another
name, `abcde`. -/
theorem loadS3d_end_of_table :
    (zlibNewReader storedInflate ((File.ofList emptyLastName).slice 20 24)
        = .ok ⟨[], encodeTable [[97], []], .eof⟩ ∧
      ZStream.read ⟨[], [0, 0, 0, 0], .eof⟩ 4 = ([0, 0, 0, 0], some .eof, ⟨[], [], .eof⟩) ∧
      loadS3d storedInflate (File.ofList emptyLastName)
        = ⟨[(44, 4), (48, 12), (60, 12), (72, 12), (12, 8), (20, 24)], some 2,
            [[97]], .error .fileNameLengthRead⟩) ∧
    (zlibNewReader storedInflate ((File.ofList truncatedName).slice 20 21)
        = .ok ⟨[], [1, 0, 0, 0, 5, 0, 0, 0, 97, 98], .eof⟩ ∧
      zlibNewReader storedInflate ((File.ofList truncatedNameExtended).slice 20 25)
        = .ok ⟨[], [1, 0, 0, 0, 5, 0, 0, 0, 97, 98] ++ [99, 100, 101, 102], .eof⟩ ∧
      loadS3d storedInflate (File.ofList truncatedName)
        = ⟨[(41, 4), (45, 12), (57, 12), (12, 8), (20, 21)], some 1,
            [[97, 98, 0, 0, 0]], .ok⟩ ∧
      loadS3d storedInflate (File.ofList truncatedNameExtended)
        = ⟨[(45, 4), (49, 12), (61, 12), (12, 8), (20, 25)], some 1,
            [[97, 98, 99, 100, 101]], .ok⟩) :=
  ⟨⟨rfl, by decide, by decide⟩, rfl, rfl, by decide, by decide⟩

/-! ## Names and directory entries -/

/-- C16, refuted as stated. The archives `twoNames` and
`twoNamesOtherPayloads` differ in the payload offsets and sizes of their
entries without the reserved checksum, (100, 5) and (200, 6) in the former,
(4000000000, 77) and (0, 4294967295) in the latter, and `loadS3d` produces
the same result on both: the same reads, the two names, success. The result
binds no name to a payload location. -/
theorem loadS3d_name_binding_counterexample :
    (directory (File.ofList twoNames) 53 3).filter
        (fun e => decide (e.CRC ≠ fileNameListCRC))
      = [⟨1, 100, 5⟩, ⟨2, 200, 6⟩] ∧
    (directory (File.ofList twoNamesOtherPayloads) 53 3).filter
        (fun e => decide (e.CRC ≠ fileNameListCRC))
      = [⟨1, 4000000000, 77⟩, ⟨2, 0, 4294967295⟩] ∧
    loadS3d storedInflate (File.ofList twoNames)
      = ⟨[(53, 4), (57, 12), (69, 12), (81, 12), (12, 8), (20, 33)], some 2,
          [[97, 46, 116, 120, 116], [98, 46, 100, 97, 116]], .ok⟩ ∧
    loadS3d storedInflate (File.ofList twoNamesOtherPayloads)
      = ⟨[(53, 4), (57, 12), (69, 12), (81, 12), (12, 8), (20, 33)], some 2,
          [[97, 46, 116, 120, 116], [98, 46, 100, 97, 116]], .ok⟩ :=
  ⟨by decide, by decide, by decide, by decide⟩

/-- C16, amended. Let the header of `f` be accepted, let its directory lie
within the file, and let its filename table be the table of the names
`init ++ [n]`, with `n` not empty, delivered by the decompressor in one flush
that ends with `io.EOF`. Then `loadS3d` succeeds and its result is the reads
it made, the name count and the names `init ++ [n]`, every one of them, in
the order of the table, a name that occurs twice being yielded twice. The
entries whose checksum is not `0x61580AC9` are, in directory order, the last
entries of the slice `fileHeaders` that the directory scan has collected; the
slice is not part of the result, which binds no name to an entry. -/
theorem loadS3d_names_and_entries (inflate : List Nat → ZStream) (f : File) (h : PFSHeader)
    (reads : List (Nat × Nat)) (init : List (List Nat)) (n : List Nat)
    (hh : readHeader f = .ok h)
    (hdir : h.Offset + 4 + 12 * le32 (f.slice h.Offset 4) ≤ f.size)
    (hopen : openFileNames inflate f h
      = .inr (reads, ⟨[], encodeTable (init ++ [n]), .eof⟩))
    (hcount : (init ++ [n]).length < 4294967296)
    (hnames : ∀ x ∈ init ++ [n], x.length < 4294967296) (hne : n ≠ []) :
    loadS3d inflate f = ⟨reads, some (init ++ [n]).length, init ++ [n], .ok⟩ ∧
    List.IsSuffix
      ((directory f h.Offset (le32 (f.slice h.Offset 4))).filter
        (fun e => decide (e.CRC ≠ fileNameListCRC)))
      (scanDirectory f h.Offset (le32 (f.slice h.Offset 4))).fileHeaders := by
  refine ⟨loadS3d_table_one_flush inflate f h reads init n hh hopen hcount hnames hne, ?_⟩
  rw [scanDirectory_readable f _ _ hdir]
  exact List.suffix_append _ _

/-- The amended C16 on `duplicateNames`: the name `a` is yielded twice, and
the slice of the scan ends with the two entries without the reserved
checksum. -/
theorem loadS3d_names_and_entries_witness :
    loadS3d storedInflate (File.ofList duplicateNames)
      = ⟨[(45, 4), (49, 12), (61, 12), (73, 12), (12, 8), (20, 25)], some 2,
          [[97], [97]], .ok⟩ ∧
    List.IsSuffix ([⟨1, 100, 5⟩, ⟨2, 200, 6⟩] : List FileHeader)
      (scanDirectory (File.ofList duplicateNames) 45 3).fileHeaders :=
  have key := loadS3d_names_and_entries storedInflate (File.ofList duplicateNames)
    ⟨45, magicPFS, 131072⟩ [(45, 4), (49, 12), (61, 12), (73, 12), (12, 8), (20, 25)]
    [[97]] [97] rfl (by decide) rfl (by decide) (by decide) (by decide)
  ⟨key.1, key.2⟩

end S3d
